import Mathlib

/-!
Shallow embedding of the resource-control core of rd-agent / resctl-bench
(`rd-agent/src/slices.rs` and `resctl-bench/src/run.rs`), together with
proofs about the claims of the specification.

Modelling conventions:
* machine integers (`u64`, `u32`) are `Nat`; overflow is irrelevant on the
  paths modelled here except where noted;
* `f64` arithmetic is modelled exactly: an IEEE-754 binary64 value produced
  from the integers handled here is a dyadic rational `m * 2 ^ (e - 52)`,
  and every rounding step (conversion from `u64`, subtraction, division)
  is round-to-nearest, ties-to-even, which the functions below implement
  over `Nat`/`Int` so that they evaluate by kernel reduction;
* the filesystem is an explicit oracle (`String → Option String`, where
  `Option.none` models a failing read), and writes are collected in an
  ordered effect list;
* process-wide globals (`instance_seq()`, `total_memory()`) are threaded
  as explicit parameters, as §9 of the spec suggests.
-/

/-! ## Exact binary64 rounding over the naturals -/

/-- Fuelled base-2 logarithm, structurally recursive so that it reduces in
the kernel (`Nat.log2` is defined by well-founded recursion and does not). -/
def log2f : Nat → Nat → Nat
  | 0, _ => 0
  | fuel + 1, n => if n ≤ 1 then 0 else log2f fuel (n / 2) + 1

/-- Floor base-2 logarithm of a positive natural (0 for 0).  128 bits of
fuel covers every value appearing in this development. -/
def nlog2 (n : Nat) : Nat := log2f 128 n

/-- Round the integer `n` to 53 significant bits, round-to-nearest
ties-to-even.  This is the exact value of the IEEE-754 binary64 nearest to
`n`; it models Rust's `n as f64` for `u64` inputs (and the rounding of any
exact integer intermediate result to binary64). -/
def flNat (n : Nat) : Nat :=
  if n < 2 ^ 53 then n
  else
    let s := nlog2 n - 52
    let q := n / 2 ^ s
    let r := n % 2 ^ s
    let h := 2 ^ (s - 1)
    let q' := if h < r ∨ (r = h ∧ q % 2 = 1) then q + 1 else q
    q' * 2 ^ s

/-- Nearest integer to `p / q` (for `q > 0`), ties to even. -/
def roundNearestEven (p q : Nat) : Nat :=
  let n := p / q
  let r := p % q
  if q < 2 * r then n + 1
  else if 2 * r = q then (if n % 2 = 0 then n else n + 1) else n

/-- Decides `2 ^ k ≤ a / b` (as rationals) purely over the naturals. -/
def qpow2le (a b : Nat) (k : Int) : Bool :=
  if 0 ≤ k then b * 2 ^ k.toNat ≤ a else b ≤ a * 2 ^ (-k).toNat

/-- Floor base-2 logarithm of the positive rational `a / b`. -/
def floorLog2 (a b : Nat) : Int :=
  let d : Int := (nlog2 a : Int) - (nlog2 b : Int)
  if qpow2le a b d then d else d - 1

/-- Round the positive rational `a / b` to binary64: the result `(m, e)`
denotes the dyadic rational `m * 2 ^ (e - 52)` with `2 ^ 52 ≤ m ≤ 2 ^ 53`.
Exponent range is irrelevant for the magnitudes used here (no overflow or
subnormals). -/
def roundMant (a b : Nat) : Nat × Int :=
  let e := floorLog2 a b
  let s : Int := 52 - e
  let m := if 0 ≤ s then roundNearestEven (a * 2 ^ s.toNat) b
           else roundNearestEven a (b * 2 ^ (-s).toNat)
  (m, e)

/-- Compares two dyadic rationals `m₁ * 2 ^ (e₁ - 52) < m₂ * 2 ^ (e₂ - 52)`
purely over the naturals. -/
def dyadicLt (x y : Nat × Int) : Bool :=
  if x.2 ≤ y.2 then x.1 < y.1 * 2 ^ (y.2 - x.2).toNat
  else x.1 * 2 ^ (x.2 - y.2).toNat < y.1

/-- The 53-bit significand of the binary64 literal `0.1`:
`0.1f64 = 7205759403792794 * 2 ^ (-56)` (the rounding of `2 ^ 56 / 10`). -/
def mantTenth : Nat := 7205759403792794

/-- Models the IEEE-754 comparison `(a as f64-value) / (b as f64-value) < 0.1f64`
for nonnegative integer-valued binary64 operands `a`, `b` (callers pass
values already rounded to 53 bits); the division itself rounds to nearest,
ties to even.  `b = 0` never occurs on the modelled path (guarded by
`target > 0`). -/
def f64DivLtTenth (a b : Nat) : Bool :=
  if b = 0 then false
  else if a = 0 then true
  else dyadicLt (roundMant a b) (mantTenth, -4)

/-- Models Rust's `((v as f64 - t as f64) / t as f64).abs() < 0.1` for
`u64` values `v`, `t`: the conversions round to 53 bits, the subtraction's
exact integer result is rounded again, and the division rounds; negation
and `abs` are exact, and binary64 rounding commutes with negation, so the
whole computation is performed on magnitudes. -/
def f64AbsDiffRatioLtTenth (v t : Nat) : Bool :=
  let vf := flNat v
  let tf := flNat t
  let d := flNat (max vf tf - min vf tf)
  f64DivLtTenth d tf

/-- Models Rust's `(hashd_mem_size as f64 * 0.75).ceil() as u64`
(slices.rs line 243).  `0.75` is exactly `3 / 4`, so the product's exact
value is `3 * flNat h / 4`, whose binary64 rounding has the significand of
`flNat (3 * flNat h)` and an exponent two lower; `.ceil()` of a dyadic
`M / 4` is exactly `(M + 3) / 4` (always representable), and the final
cast is exact. -/
def rustCeil75 (h : Nat) : Nat := (flNat (3 * flNat h) + 3) / 4

/-! ## Parsing helpers -/

/-- Models Rust's `str::parse::<u64>()` (an optional leading `+`, then one
or more ASCII digits, rejecting overflow past `2 ^ 64 - 1`). -/
def parseU64 (s : String) : Option Nat :=
  let cs := match s.data with
    | '+' :: rest => rest
    | cs => cs
  if cs.isEmpty then Option.none
  else if cs.all Char.isDigit then
    let n := cs.foldl (fun acc c => acc * 10 + (c.toNat - 48)) 0
    if n < 2 ^ 64 then Option.some n else Option.none
  else Option.none

/-- Suffix test on strings by their character lists (structurally
recursive, unlike `String.endsWith`, so that it reduces in the kernel). -/
def strEndsWith (s suf : String) : Bool :=
  suf.data.isSuffixOf s.data

/-- Splits a character list at `'/'` separators (structural `splitOn`). -/
def splitSlash : List Char → List (List Char)
  | [] => [[]]
  | c :: cs =>
    match splitSlash cs with
    | [] => [[]]
    | h :: t => if c = '/' then [] :: h :: t else (c :: h) :: t

/-- Models `scan_fmt!(&line, "{d}", u32)`: a decimal `u32`. -/
def scanDecU32 (s : String) : Option Nat :=
  match parseU64 s with
  | Option.some n => if n < 2 ^ 32 then Option.some n else Option.none
  | Option.none => Option.none

/-- Models `scan_fmt!(&line, "default {d}", u32)` used on `io.weight`. -/
def scanDefaultU32 (s : String) : Option Nat :=
  if "default ".data.isPrefixOf s.data then scanDecU32 (String.mk (s.data.drop 8))
  else Option.none

/-- Parsing of a memory attribute file's current content in `fix_cgrp_mem`
(slices.rs lines 480-483): the literal `"max"` reads as `u64::MAX`,
anything else goes through `str::parse::<u64>()`. -/
def parseMemLine (line : String) : Option Nat :=
  if line = "max" then Option.some (2 ^ 64 - 1) else parseU64 line

/-! ## Data model (`rd_agent_intf` types) -/

/-- `u64::MAX`. -/
def u64max : Nat := 2 ^ 64 - 1

/-- Modelled from the spec: the `Slice` enumeration of `rd_agent_intf`
(not under `src/`); §3: finite set \x7bHost, Init, System, User, Work, Side\x7d. -/
inductive Slice
  | Host
  | Init
  | System
  | User
  | Work
  | Side
deriving DecidableEq

/-- Modelled from the spec: enumeration order of `Slice::into_enum_iter()`
(§3 lists the slices in this order; the claims settled here do not depend
on the order, only on each slice appearing exactly once). -/
def Slice.all : List Slice := [.Host, .Init, .System, .User, .Work, .Side]

/-- Modelled from the spec: each slice's fixed unit-manager name (§3 gives
`workload.slice` for Work; `Init` is the systemd `init.scope`, giving the
`[Scope]` drop-in section of §4.3 step 3). -/
def Slice.name : Slice → String
  | .Host => "hostcritical.slice"
  | .Init => "init.scope"
  | .System => "system.slice"
  | .User => "user.slice"
  | .Work => "workload.slice"
  | .Side => "sideload.slice"

/-- Modelled from the spec: each slice's fixed cgroupfs path (§3). -/
def Slice.cgrp (s : Slice) : String := "/sys/fs/cgroup/" ++ s.name

/-- Modelled from the spec: `MemoryKnob` of `rd_agent_intf` (§3), a tagged
value `None | Max | Bytes(u64) | Percent(f64)`.  The percent payload is
kept as an exact rational. -/
inductive MemoryKnob
  | none
  | max
  | bytes (n : Nat)
  | percent (p : ℚ)
deriving DecidableEq

/-- Modelled from the spec: `MemoryKnob::nr_bytes(is_limit)` (§3): `None`
resolves to 0 for protections and `u64::MAX` for limits; `Max` to
`u64::MAX`; `Percent(p)` to `p × total_memory / 100`. -/
def MemoryKnob.nrBytes (k : MemoryKnob) (isLimit : Bool) (total : Nat) : Nat :=
  match k with
  | .none => if isLimit then u64max else 0
  | .max => u64max
  | .bytes n => n
  | .percent p => (Rat.floor (p * total / 100)).toNat

/-- Modelled from the spec: per-slice intended knobs (§3 `SliceConfig`). -/
structure SliceConfig where
  cpu_weight : Nat
  io_weight : Nat
  mem_min : MemoryKnob
  mem_low : MemoryKnob
  mem_high : MemoryKnob
deriving DecidableEq

/-- Modelled from the spec: `disable_seqs` epoch stamps (§3). -/
structure DisableSeqKnobs where
  cpu : Nat
  io : Nat
  mem : Nat
deriving DecidableEq

/-- Modelled from the spec: `SliceKnobs` (§3); the name-keyed map of the
source (all six slices always present) is a total function. -/
structure SliceKnobs where
  slices : Slice → SliceConfig
  disable_seqs : DisableSeqKnobs
  work_mem_low_none : Bool

/-- Modelled from the spec: `EnforceConfig` (§3). -/
structure EnforceConfig where
  cpu : Bool
  io : Bool
  mem : Bool
  crit_mem_prot : Bool
deriving DecidableEq

/-- The slice of rd-agent's `Config` used by slices.rs: the enforcement
booleans and the `memcg_recursive_prot()` host capability probe. -/
structure Config where
  enforce : EnforceConfig
  memcg_recursive_prot : Bool

/-! ## slices.rs: knob encodings and slice predicates -/

/-- slices.rs `mknob_to_cgrp_string`. -/
def mknobToCgrpString (knob : MemoryKnob) (isLimit : Bool) (total : Nat) : String :=
  let v := knob.nrBytes isLimit total
  if v = u64max then "max" else toString v

/-- slices.rs `mknob_to_systemd_string`. -/
def mknobToSystemdString (knob : MemoryKnob) (isLimit : Bool) (total : Nat) : String :=
  let v := knob.nrBytes isLimit total
  if v = u64max then "infinity" else toString v

/-- slices.rs `mknob_to_unit_resctl`. -/
def mknobToUnitResctl (knob : MemoryKnob) (total : Nat) : Option Nat :=
  match knob with
  | MemoryKnob.none => Option.none
  | _ => Option.some (knob.nrBytes true total)

/-- slices.rs `slice_needs_mem_prot_propagation`. -/
def sliceNeedsMemProtPropagation (slice : Slice) : Bool :=
  match slice with
  | .Work | .Side => false
  | _ => true

/-- slices.rs `slice_needs_start_stop`. -/
def sliceNeedsStartStop (slice : Slice) : Bool :=
  match slice with
  | .Side => true
  | _ => false

/-- slices.rs `slice_needs_crit_mem_prot`. -/
def sliceNeedsCritMemProt (slice : Slice) : Bool :=
  match slice with
  | .Host | .Init => true
  | _ => false

/-- slices.rs `slice_enforce_mem`. -/
def sliceEnforceMem (ecfg : EnforceConfig) (slice : Slice) : Bool :=
  ecfg.mem || (ecfg.crit_mem_prot && sliceNeedsCritMemProt slice)

/-- The per-slice skip condition of `apply_slices` (line 250) and
`clear_slices` (line 357): no dimension at all is enforced for the slice. -/
def sliceSkipped (ecfg : EnforceConfig) (slice : Slice) : Bool :=
  !ecfg.cpu && !sliceEnforceMem ecfg slice && !ecfg.io

/-! ## slices.rs: drop-in construction and the apply / clear passes

The drop-in surface is the six per-slice `resctl.conf` files, modelled as a
total function `Slice → Option String` (`Option.none` = file absent).  Unit
manager calls (`try_start_nowait`, cascade propagation, `iocost_on_off`) do
not touch this surface and are tracked only where a claim needs them. -/

/-- The lines of `build_configlet` (slices.rs lines 100-137): the fixed
header comment, the section header chosen by the unit-name suffix, then one
`key=value` line per present field, in source order. -/
def configletLines (slice : Slice) (cpu_weight io_weight : Option Nat)
    (mem_min mem_low mem_high : Option MemoryKnob) (total : Nat) : List String :=
  let sec := if strEndsWith slice.name ".slice" then "Slice" else "Scope"
  ["# Generated by rd-agent. Do not edit directly.", "[" ++ sec ++ "]"]
  ++ (match cpu_weight with
      | Option.some w => ["CPUWeight=" ++ toString w]
      | Option.none => [])
  ++ (match io_weight with
      | Option.some w => ["IOWeight=" ++ toString w]
      | Option.none => [])
  ++ (match mem_min with
      | Option.some m => ["MemoryMin=" ++ mknobToSystemdString m false total]
      | Option.none => [])
  ++ (match mem_low with
      | Option.some m => ["MemoryLow=" ++ mknobToSystemdString m false total]
      | Option.none => [])
  ++ (match mem_high with
      | Option.some m => ["MemoryHigh=" ++ mknobToSystemdString m true total]
      | Option.none => [])

/-- slices.rs `build_configlet`: the file body is the lines, each
terminated by a newline (`writeln!`; the header literal embeds its own). -/
def buildConfiglet (slice : Slice) (cpu_weight io_weight : Option Nat)
    (mem_min mem_low mem_high : Option MemoryKnob) (total : Nat) : String :=
  String.join ((configletLines slice cpu_weight io_weight mem_min mem_low mem_high total).map
    (fun l => l ++ "\n"))

/-- slices.rs `apply_configlet` (lines 139-173), restricted to the drop-in
surface: read the existing file; if byte-identical, report `false` with no
write; otherwise write the new content and report `true`.  (The
`try_start_nowait` side effect for `Side` does not touch drop-ins.) -/
def applyConfiglet (slice : Slice) (configlet : String) (fs : Slice → Option String) :
    Bool × (Slice → Option String) :=
  match fs slice with
  | Option.some buf =>
    if buf = configlet then (false, fs)
    else (true, fun s => if s = slice then Option.some configlet else fs s)
  | Option.none => (true, fun s => if s = slice then Option.some configlet else fs s)

/-- State threaded through the `apply_slices` loop: the drop-in files and
the slices whose `apply_configlet` returned `true`, in order (the source's
`updated` flag is `changed ≠ []`; each `true` is exactly one file write). -/
structure ApplyState where
  fs : Slice → Option String
  changed : List Slice

/-- The knob options computed for one slice by `apply_slices`
(lines 255-278). -/
def dropinKnobs (knobs : SliceKnobs) (cfg : Config) (iseq : Nat) (slice : Slice) :
    Option Nat × Option Nat × Option MemoryKnob × Option MemoryKnob × Option MemoryKnob :=
  let sk := knobs.slices slice
  let cpu_weight := if cfg.enforce.cpu then Option.some sk.cpu_weight else Option.none
  let io_weight := if cfg.enforce.io then Option.some sk.io_weight else Option.none
  if sliceEnforceMem cfg.enforce slice then
    (cpu_weight, io_weight, Option.some sk.mem_min,
     if slice = Slice.Work ∧ iseq ≤ knobs.disable_seqs.mem then Option.none
     else Option.some sk.mem_low,
     Option.some sk.mem_high)
  else
    (cpu_weight, io_weight, Option.none, Option.none, Option.none)

/-- The drop-in written for `slice` by `apply_slices` under `knobs`. -/
def dropinFor (knobs : SliceKnobs) (cfg : Config) (iseq total : Nat) (slice : Slice) : String :=
  match dropinKnobs knobs cfg iseq slice with
  | (cw, iw, mn, ml, mh) => buildConfiglet slice cw iw mn ml mh total

/-- One iteration of the `apply_slices` per-slice loop (lines 247-296),
drop-in surface only (cascade propagation does not touch drop-ins). -/
def applySliceOne (knobs : SliceKnobs) (cfg : Config) (iseq total : Nat) (slice : Slice)
    (st : ApplyState) : ApplyState :=
  if sliceSkipped cfg.enforce slice then st
  else
    let configlet := dropinFor knobs cfg iseq total slice
    match applyConfiglet slice configlet st.fs with
    | (true, fs') => { fs := fs', changed := st.changed ++ [slice] }
    | (false, fs') => { fs := fs', changed := st.changed }

/-- The `work_mem_low_none` recomputation at the top of `apply_slices`
(lines 241-244): `Work.mem_low := Bytes((hashd_mem_size as f64 * 0.75).ceil() as u64)`. -/
def updWorkMemLow (knobs : SliceKnobs) (hashdMemSize : Nat) : SliceKnobs :=
  if knobs.work_mem_low_none then
    { knobs with
      slices := fun s =>
        if s = Slice.Work then
          { knobs.slices Slice.Work with mem_low := MemoryKnob.bytes (rustCeil75 hashdMemSize) }
        else knobs.slices s }
  else knobs

/-- Result of `apply_slices`: the (possibly mutated) knobs, the drop-in
files, the changed slices, and whether `daemon_reload` was invoked. -/
structure ApplyOut where
  knobs : SliceKnobs
  fs : Slice → Option String
  changed : List Slice
  daemonReload : Bool

/-- slices.rs `apply_slices` (lines 240-309), drop-in surface: recompute
`Work.mem_low` if requested, run the per-slice loop, and invoke
`daemon_reload` iff any drop-in changed.  (`iocost_on_off` at the end
touches no drop-in; claims about `apply_slices` condition on success.) -/
def applySlices (knobs : SliceKnobs) (hashdMemSize : Nat) (cfg : Config) (iseq total : Nat)
    (fs : Slice → Option String) : ApplyOut :=
  let knobs' := updWorkMemLow knobs hashdMemSize
  let st := Slice.all.foldl (fun st slice => applySliceOne knobs' cfg iseq total slice st)
    { fs := fs, changed := [] }
  { knobs := knobs', fs := st.fs, changed := st.changed, daemonReload := !st.changed.isEmpty }

/-- slices.rs `clear_one_slice` (lines 311-350), drop-in surface: remove
the drop-in if present and report whether a file was removed (the unit
override reset and the `Side` stop do not touch drop-ins). -/
def clearOneSlice (slice : Slice) (fs : Slice → Option String) :
    Bool × (Slice → Option String) :=
  match fs slice with
  | Option.some _ => (true, fun s => if s = slice then Option.none else fs s)
  | Option.none => (false, fs)

/-- State of the `clear_slices` loop. -/
structure ClearState where
  fs : Slice → Option String
  updated : Bool

/-- One iteration of the `clear_slices` loop (lines 354-374). -/
def clearSliceOne (ecfg : EnforceConfig) (slice : Slice) (st : ClearState) : ClearState :=
  if sliceSkipped ecfg slice then st
  else
    match clearOneSlice slice st.fs with
    | (removed, fs') => { fs := fs', updated := st.updated || removed }

/-- slices.rs `clear_slices` (lines 352-379), drop-in surface. -/
def clearSlices (ecfg : EnforceConfig) (fs : Slice → Option String) : ClearState :=
  Slice.all.foldl (fun st slice => clearSliceOne ecfg slice st) { fs := fs, updated := false }

/-! ## slices.rs: cgroupfs verifier

Reads go through an explicit filesystem oracle; writes and unit-manager
reconciliations are collected as ordered effects.  Globbed path sets are
oracle parameters (the real glob results). -/

/-- A side effect of the verifier: a `write_one_line` to a cgroupfs file,
or a unit-manager override application (`unit.resctl` field update followed
by `unit.apply()`; `Option.none` update = `apply` with no field change). -/
inductive Eff
  | write (path content : String)
  | unitApply (cgrp : String) (upd : Option (String × Nat))
deriving DecidableEq

/-- The cgroupfs world the verifier runs against. -/
structure CgFs where
  /-- file contents by path; `Option.none` = `read_one_line` fails. -/
  files : String → Option String
  /-- which slice cgroup directories exist (verify loop line 599). -/
  dirExists : Slice → Bool
  /-- glob result for `parent/*/**/file` (fix_recursive_mem_prot). -/
  descFiles : String → String → List String
  /-- glob result for `/sys/fs/cgroup/**/cgroup.subtree_control`. -/
  scFiles : List String
  /-- which `write_one_line` calls fail (used by fix_overrides, whose
  failures are tallied rather than propagated). -/
  writeFails : String → Bool

/-- Final component of a path (Rust `Path::file_name`, `""` when absent). -/
def pathFileName (p : String) : String :=
  String.mk (((splitSlash p.data).getLast?).getD [])

/-- Name of the parent directory of a path (slices.rs lines 505-510). -/
def pathParentName (p : String) : String :=
  String.mk ((((splitSlash p.data).dropLast).getLast?).getD [])

/-- The tolerance test of `fix_cgrp_mem` (slices.rs lines 484-493) on a
parsed current value `cur` against raw target bytes `targetRaw`: clamp both
to `total_memory()`, then accept on exact equality or, when the clamped
target is positive, when the binary64 computation
`((v as f64 - target as f64) / target as f64).abs()` is `< 0.1`. -/
def memWithinTol (cur targetRaw total : Nat) : Bool :=
  let target := min targetRaw total
  let v := min cur total
  target = v || (0 < target && f64AbsDiffRatioLtTenth v target)

/-- slices.rs `fix_cgrp_mem` (lines 477-526): read the attribute, parse it
(`"max"` ↔ `u64::MAX`), return no effect when within tolerance; otherwise
write the cgroupfs encoding of the knob and, when the parent directory is a
service/scope/slice, reflect the value into the unit manager's override set
and re-apply.  A failing read propagates as an error. -/
def fixCgrpMem (files : String → Option String) (path : String) (isLimit : Bool)
    (knob : MemoryKnob) (total : Nat) : Except String (List Eff) :=
  match files path with
  | Option.none => Except.error path
  | Option.some line =>
    let cur := parseMemLine line
    let within := match cur with
      | Option.some v => memWithinTol v (knob.nrBytes isLimit total) total
      | Option.none => false
    if within then Except.ok []
    else
      let expected := mknobToCgrpString knob isLimit total
      let file := pathFileName path
      let cgrp := pathParentName path
      if !(strEndsWith cgrp ".service" || strEndsWith cgrp ".scope"
          || strEndsWith cgrp ".slice") then
        Except.ok [Eff.write path expected]
      else
        let nrBytes := knob.nrBytes isLimit total
        let upd : Option (String × Nat) :=
          if file = "memory.min" then Option.some ("mem_min", nrBytes)
          else if file = "memory.low" then Option.some ("mem_low", nrBytes)
          else if file = "memory.high" then Option.some ("mem_high", nrBytes)
          else if file = "memory.max" then Option.some ("mem_max", nrBytes)
          else Option.none
        Except.ok [Eff.write path expected, Eff.unitApply cgrp upd]

/-- slices.rs `fix_slice_cpu` (lines 437-455): nothing when disabled; else
read `cpu.weight`, and unless it parses to exactly the configured weight,
rewrite it.  No unit-manager effect appears in the source. -/
def fixSliceCpu (files : String → Option String) (sk : SliceConfig) (path : String)
    (enable : Bool) : Except String (List Eff) :=
  if !enable then Except.ok []
  else
    match files (path ++ "/cpu.weight") with
    | Option.none => Except.error (path ++ "/cpu.weight")
    | Option.some line =>
      match scanDecU32 line with
      | Option.some v =>
        if v = sk.cpu_weight then Except.ok []
        else Except.ok [Eff.write (path ++ "/cpu.weight") (toString sk.cpu_weight)]
      | Option.none =>
        Except.ok [Eff.write (path ++ "/cpu.weight") (toString sk.cpu_weight)]

/-- slices.rs `fix_slice_io` (lines 457-475): like the cpu fix but on
`io.weight` with the `"default N"` line form. -/
def fixSliceIo (files : String → Option String) (sk : SliceConfig) (path : String)
    (enable : Bool) : Except String (List Eff) :=
  if !enable then Except.ok []
  else
    match files (path ++ "/io.weight") with
    | Option.none => Except.error (path ++ "/io.weight")
    | Option.some line =>
      match scanDefaultU32 line with
      | Option.some v =>
        if v = sk.io_weight then Except.ok []
        else Except.ok [Eff.write (path ++ "/io.weight") ("default " ++ toString sk.io_weight)]
      | Option.none =>
        Except.ok [Eff.write (path ++ "/io.weight") ("default " ++ toString sk.io_weight)]

/-- slices.rs `fix_recursive_mem_prot` (lines 528-541): run `fix_cgrp_mem`
on every globbed descendant file; per-descendant failures are warned and
skipped, never propagated. -/
def fixRecursiveMemProt (fsys : CgFs) (parent file : String) (knob : MemoryKnob)
    (total : Nat) : List Eff :=
  (fsys.descFiles parent file).foldr
    (fun p acc =>
      match fixCgrpMem fsys.files p false knob total with
      | Except.ok es => es ++ acc
      | Except.error _ => acc)
    []

/-- slices.rs `fix_slice_mem` (lines 543-574). -/
def fixSliceMem (fsys : CgFs) (sk : SliceConfig) (path : String)
    (enable verifyMemHigh propagateMemProt recursiveMemProt : Bool) (total : Nat) :
    Except String (List Eff) :=
  if enable then do
    let e1 ← fixCgrpMem fsys.files (path ++ "/memory.min") false sk.mem_min total
    let e2 ← fixCgrpMem fsys.files (path ++ "/memory.low") false sk.mem_low total
    let e3 ← fixCgrpMem fsys.files (path ++ "/memory.max") true MemoryKnob.none total
    let e4 ←
      if verifyMemHigh then
        fixCgrpMem fsys.files (path ++ "/memory.high") true sk.mem_high total
      else pure []
    let e5 :=
      if propagateMemProt then
        if recursiveMemProt then
          fixRecursiveMemProt fsys path "memory.min" (MemoryKnob.bytes 0) total
          ++ fixRecursiveMemProt fsys path "memory.low" (MemoryKnob.bytes 0) total
        else
          fixRecursiveMemProt fsys path "memory.min" sk.mem_min total
          ++ fixRecursiveMemProt fsys path "memory.low" sk.mem_low total
      else []
    pure (e1 ++ e2 ++ e3 ++ e4 ++ e5)
  else do
    let e1 ← fixCgrpMem fsys.files (path ++ "/memory.min") false MemoryKnob.none total
    let e2 ← fixCgrpMem fsys.files (path ++ "/memory.low") false MemoryKnob.none total
    pure (e1 ++ e2)

/-! ## slices.rs: subtree controller toggling (`fix_overrides`) -/

/-- Insertion of a path into a list already sorted by decreasing length. -/
def insertLenDesc (p : String) : List String → List String
  | [] => [p]
  | q :: qs => if q.length ≤ p.length then p :: q :: qs else q :: insertLenDesc p qs

/-- Models `scs.sort_unstable_by_key(|x| -(x.len() as i64))` (line 407):
sort by decreasing path length (the source's sort is unstable, so only the
ordering by length and the multiset of elements are meaningful). -/
def sortByLenDesc : List String → List String
  | [] => []
  | p :: ps => insertLenDesc p (sortByLenDesc ps)

/-- The write loop of `fix_overrides` (lines 410-420): write the disable
string to each path in order; the first failure is warned (loudly), later
failures only counted.  Returns the attempted writes in order, the failure
count, and the warned path. -/
def scWriteLoop (fails : String → Bool) (content : String) :
    List String → Nat → Option String → List (String × String) × Nat × Option String
  | [], n, w => ([], n, w)
  | p :: ps, n, w =>
    if fails p then
      let w' := if n = 0 then Option.some p else w
      let rest := scWriteLoop fails content ps (n + 1) w'
      ((p, content) :: rest.1, rest.2)
    else
      let rest := scWriteLoop fails content ps n w
      ((p, content) :: rest.1, rest.2)

/-- The `disable` and `enable` edit strings of `fix_overrides`
(lines 383-399), built in source order. -/
def overrideStrs (dseqs : DisableSeqKnobs) (cfg : Config) (iseq : Nat) : String × String :=
  let disable := ""
  let enable := ""
  let (disable, enable) :=
    if cfg.enforce.cpu then
      if dseqs.cpu < iseq then (disable, enable ++ " +cpu") else (disable ++ " -cpu", enable)
    else (disable, enable)
  let enable := if cfg.enforce.io then enable ++ " +io" else enable
  let enable := if cfg.enforce.crit_mem_prot then enable ++ " +memory" else enable
  (disable, enable)

/-- Result of `fix_overrides`. -/
structure OverridesOut where
  /-- disable-string writes attempted, in order. -/
  disableWrites : List (String × String)
  /-- number of failed disable writes. -/
  nrFailed : Nat
  /-- path of the loudly warned (first) failed disable write. -/
  firstFailWarn : Option String
  /-- the single root enable write, when the enable string is non-empty. -/
  enableWrites : List (String × String)
  /-- `true` when the root enable write failed (propagated as `Err`). -/
  err : Bool

/-- slices.rs `fix_overrides` (lines 381-435). -/
def fixOverrides (dseqs : DisableSeqKnobs) (cfg : Config) (iseq : Nat)
    (scFiles : List String) (writeFails : String → Bool) : OverridesOut :=
  let (disable, enable) := overrideStrs dseqs cfg iseq
  let (dw, nf, warn) :=
    if disable.length > 0 then
      scWriteLoop writeFails disable (sortByLenDesc scFiles) 0 Option.none
    else ([], 0, Option.none)
  if enable.length > 0 then
    { disableWrites := dw, nrFailed := nf, firstFailWarn := warn,
      enableWrites := [("/sys/fs/cgroup/cgroup.subtree_control", enable)],
      err := writeFails "/sys/fs/cgroup/cgroup.subtree_control" }
  else
    { disableWrites := dw, nrFailed := nf, firstFailWarn := warn,
      enableWrites := [], err := false }

/-- Substring test, modelling Rust's `str::contains` on the
`cgroup.subtree_control` content (line 585). -/
def strContains (s pat : String) : Bool :=
  s.data.tails.any (fun t => pat.data.isPrefixOf t)

/-- The per-slice body of the `verify_and_fix_slices` loop
(slices.rs lines 595-626). -/
def verifySliceBody (knobs : SliceKnobs) (senpai : Bool) (cfg : Config) (iseq total : Nat)
    (fsys : CgFs) (slice : Slice) : Except String (List Eff) :=
  if !fsys.dirExists slice then Except.ok []
  else do
    let sk := knobs.slices slice
    let path := slice.cgrp
    let e1 ←
      if cfg.enforce.cpu then
        fixSliceCpu fsys.files sk path (decide (knobs.disable_seqs.cpu < iseq))
      else pure []
    let e2 ←
      if cfg.enforce.io then
        fixSliceIo fsys.files sk path (decide (knobs.disable_seqs.io < iseq))
      else pure []
    let e3 ←
      if sliceEnforceMem cfg.enforce slice then
        let gates : Bool × Bool :=
          match slice with
          | Slice.Work => (decide (knobs.disable_seqs.mem < iseq), !senpai)
          | _ => (true, true)
        fixSliceMem fsys sk path gates.1 gates.2 (sliceNeedsMemProtPropagation slice)
          cfg.memcg_recursive_prot total
      else pure []
    pure (e1 ++ e2 ++ e3)

/-- The slice loop of `verify_and_fix_slices`, accumulating effects in
order. -/
def verifySlicesGo (knobs : SliceKnobs) (senpai : Bool) (cfg : Config) (iseq total : Nat)
    (fsys : CgFs) : List Slice → Except String (List Eff)
  | [] => Except.ok []
  | s :: rest => do
    let es ← verifySliceBody knobs senpai cfg iseq total fsys s
    let tail ← verifySlicesGo knobs senpai cfg iseq total fsys rest
    pure (es ++ tail)

/-- slices.rs `verify_and_fix_slices` (lines 576-632): check the root
`cgroup.subtree_control` against the enforce + disable-seq gates and run
`fix_overrides` on mismatch, then verify every slice whose cgroup directory
exists.  (`check_other_io_controllers` at the end only reads files and
records a sysreq flag; it produces no write or unit effect.) -/
def verifyAndFixSlices (knobs : SliceKnobs) (senpai : Bool) (cfg : Config) (iseq total : Nat)
    (fsys : CgFs) : Except String (List Eff) :=
  let dseqs := knobs.disable_seqs
  match fsys.files "/sys/fs/cgroup/cgroup.subtree_control" with
  | Option.none => Except.error "/sys/fs/cgroup/cgroup.subtree_control"
  | Option.some line => do
    let e0 ←
      if (cfg.enforce.cpu && (decide (dseqs.cpu < iseq) != strContains line "cpu"))
          || (cfg.enforce.io && !strContains line "io")
          || (cfg.enforce.crit_mem_prot && !strContains line "memory") then
        let out := fixOverrides dseqs cfg iseq fsys.scFiles fsys.writeFails
        if out.err then Except.error "/sys/fs/cgroup/cgroup.subtree_control"
        else pure ((out.disableWrites ++ out.enableWrites).map (fun pc => Eff.write pc.1 pc.2))
      else pure []
    let es ← verifySlicesGo knobs senpai cfg iseq total fsys Slice.all
    pure (e0 ++ es)

/-- The writes contained in an effect list that target path `p`, in order. -/
def effWrites (effs : List Eff) (p : String) : List String :=
  effs.filterMap (fun e =>
    match e with
    | Eff.write q c => if q = p then Option.some c else Option.none
    | Eff.unitApply _ _ => Option.none)

/-- The unit-manager applications contained in an effect list. -/
def effUnitApplies (effs : List Eff) : List (String × Option (String × Nat)) :=
  effs.filterMap (fun e =>
    match e with
    | Eff.write _ _ => Option.none
    | Eff.unitApply c u => Option.some (c, u))

/-! ## run.rs: minder task and wait primitive

Wall-clock time is modelled in whole seconds (the minder ticks on UNIX
second boundaries).  Each `svc.unit.refresh()` call is an oracle entry
`(time, result)`; a failing refresh leaves the previously observed unit
state in place, exactly as in the source. -/

/-- Modelled from the spec: `util::systemd::UnitState` (not under `src/`);
§3 of the data model: "lifecycle state (enum including `Running`,
`OtherActive(detail)`, others)". -/
inductive UnitState
  | Running
  | OtherActive (detail : String)
  | Stopped
  | Failed (detail : String)
deriving DecidableEq

/-- run.rs `MinderState` (lines 20-26). -/
inductive MinderState
  | Ok
  | AgentTimeout
  | AgentNotRunning (st : UnitState)
  | ReportTimeout
deriving DecidableEq

/-- Outcome of one `svc.unit.refresh()` call. -/
inductive RefreshResult
  | fail
  | ok (st : UnitState)
deriving DecidableEq

/-- Result of the minder's `'status` retry loop. -/
inductive StatusRes
  | agentTimeout
  | notRunning (st : UnitState) (lastStatusAt : Nat)
  | running (lastStatusAt : Nat)
  | stuck
deriving DecidableEq

/-- The `'status` loop of `RunCtx::minder` (run.rs lines 189-223): attempt
a refresh; on failure, exit with `AgentTimeout` if more than
`MINDER_AGENT_TIMEOUT` (30s) elapsed since `last_status_at`; in every
non-exiting case set `last_status_at` to the attempt time (the source's
unconditional `last_status_at = SystemTime::now()` at line 205); then
retry up to 3 times while the observed state is not `Running`, and exit
with the state after the retries are exhausted.  `stuck` is a modelling
artifact for an exhausted oracle. -/
def statusLoop : Nat → UnitState → Nat → List (Nat × RefreshResult) → StatusRes
  | _, _, _, [] => StatusRes.stuck
  | lastStatusAt, st, nrTries, (t, r) :: rest =>
    let failed := match r with
      | RefreshResult.fail => true
      | RefreshResult.ok _ => false
    if failed = true ∧ lastStatusAt + 30 < t then StatusRes.agentTimeout
    else
      let st' := match r with
        | RefreshResult.ok s => s
        | RefreshResult.fail => st
      if st' ≠ UnitState.Running then
        if 0 < nrTries then statusLoop t st' (nrTries - 1) rest
        else StatusRes.notRunning st' t
      else StatusRes.running t

/-- One minder tick's observations: the refresh attempts (time, result),
the report file timestamp seen after `agent_files.refresh()`, and the
wall-clock time at the staleness check. -/
structure Tick where
  attempts : List (Nat × RefreshResult)
  reportTs : Nat
  now : Nat
deriving DecidableEq

/-- The minder's per-tick persistent state. -/
structure MinderSt where
  lastStatusAt : Nat
  lastReportAt : Nat
  unitState : UnitState
deriving DecidableEq

/-- How a minder tick ends when it does not continue. -/
inductive MinderExit
  | exitState (st : MinderState)
  | oracleEnd
deriving DecidableEq

/-- One tick of `RunCtx::minder` (run.rs lines 179-243): run the status
loop (with 3 retries); on survival, advance `last_report_at` to the report
timestamp if newer, and exit with `ReportTimeout` when the report is more
than 30 seconds older than the wall clock. -/
def minderTick (s : MinderSt) (tk : Tick) : MinderSt ⊕ MinderExit :=
  match statusLoop s.lastStatusAt s.unitState 3 tk.attempts with
  | StatusRes.agentTimeout => Sum.inr (MinderExit.exitState MinderState.AgentTimeout)
  | StatusRes.notRunning st _ => Sum.inr (MinderExit.exitState (MinderState.AgentNotRunning st))
  | StatusRes.stuck => Sum.inr MinderExit.oracleEnd
  | StatusRes.running lsa =>
    let lra := max s.lastReportAt tk.reportTs
    if lra + 30 < tk.now then Sum.inr (MinderExit.exitState MinderState.ReportTimeout)
    else Sum.inl { lastStatusAt := lsa, lastReportAt := lra, unitState := UnitState.Running }

/-- Run the minder over a sequence of ticks; `Option.none` means it is
still running (minder-state still `Ok`) after all of them. -/
def minderRun (s : MinderSt) : List Tick → Option MinderExit
  | [] => Option.none
  | tk :: rest =>
    match minderTick s tk with
    | Sum.inl s' => minderRun s' rest
    | Sum.inr k => Option.some k

/-- Outcome of one pass of the `wait_cond_fallible` loop body. -/
inductive WaitOutcome
  | ok
  | minderErr (st : MinderState)
  | timedOut
  | exiting
  | keepWaiting
deriving DecidableEq

/-- One pass of the `wait_cond_fallible` loop (run.rs lines 317-334), in
source order under the mutex: the predicate is evaluated first and a true
predicate returns success; only then is a non-`Ok` minder state surfaced
as an error; then deadline expiry; then the global exit signal. -/
def waitCondStep (condHolds : Bool) (minder : MinderState) (expired exitReq : Bool) :
    WaitOutcome :=
  if condHolds then WaitOutcome.ok
  else if minder ≠ MinderState.Ok then WaitOutcome.minderErr minder
  else if expired then WaitOutcome.timedOut
  else if exitReq then WaitOutcome.exiting
  else WaitOutcome.keepWaiting

/-- The lines of the drop-in that `apply_slices` generates for a slice. -/
def dropinLines (knobs : SliceKnobs) (cfg : Config) (iseq total : Nat) (slice : Slice) :
    List String :=
  match dropinKnobs knobs cfg iseq slice with
  | (cw, iw, mn, ml, mh) => configletLines slice cw iw mn ml mh total

/-! ## Concrete sample inputs used by witnesses and counterexamples -/

/-- 16 GiB, a sample `total_memory()`. -/
def tot0 : Nat := 17179869184

/-- The S1 sample slice configuration of the spec. -/
def sc0 : SliceConfig :=
  { cpu_weight := 100, io_weight := 500, mem_min := MemoryKnob.bytes 1073741824,
    mem_low := MemoryKnob.bytes 2147483648, mem_high := MemoryKnob.max }

/-- All-zero disable sequence stamps. -/
def dseqs0 : DisableSeqKnobs := { cpu := 0, io := 0, mem := 0 }

/-- Sample knobs, every slice configured as `sc0`. -/
def k0 : SliceKnobs := { slices := fun _ => sc0, disable_seqs := dseqs0, work_mem_low_none := false }

/-- Sample knobs with `work_mem_low_none` set. -/
def kWml : SliceKnobs :=
  { slices := fun _ => sc0, disable_seqs := dseqs0, work_mem_low_none := true }

/-- Full enforcement. -/
def ecfg0 : EnforceConfig := { cpu := true, io := true, mem := true, crit_mem_prot := true }

/-- Sample config: full enforcement, no kernel recursive memcg protection. -/
def cfg0 : Config := { enforce := ecfg0, memcg_recursive_prot := false }

/-- Blank drop-in directories. -/
def fs0 : Slice → Option String := fun _ => Option.none

/-- Path of the memory attribute used in the C2 counterexample. -/
def c2path : String := "/sys/fs/cgroup/workload.slice/memory.low"

/-- Cgroupfs contents for the C2 counterexample: the current value
`39631676720860364` against target `2 ^ 55` has exact relative error
`3602879701896396 / 2 ^ 55 < 1 / 10`, but the binary64 computation of the
source rounds the current value up to `39631676720860368` and the ratio to
a value above `0.1f64`, so `fix_cgrp_mem` writes. -/
def c2files : String → Option String :=
  fun p => if p = c2path then Option.some "39631676720860364" else Option.none

/-- Cgroupfs contents for the C2 witness (current 1000, target 1005:
within 10%). -/
def c2wfiles : String → Option String :=
  fun p => if p = c2path then Option.some "1000" else Option.none

/-- The cpu.weight path of the C6 counterexample (S4 of the spec). -/
def cpuPathC6 : String := "/sys/fs/cgroup/workload.slice/cpu.weight"

/-- Cgroupfs world for the C6 counterexample: intended `cpu_weight = 100`,
file contains `"50"`, only the Work slice directory exists. -/
def fsysC6 : CgFs :=
  { files := fun p =>
      if p = "/sys/fs/cgroup/cgroup.subtree_control" then Option.some "cpu io memory"
      else if p = cpuPathC6 then Option.some "50"
      else Option.none,
    dirExists := fun s => decide (s = Slice.Work),
    descFiles := fun _ _ => [],
    scFiles := [],
    writeFails := fun _ => false }

/-- Enforce only cpu, as in scenario S4. -/
def cfgC6 : Config :=
  { enforce := { cpu := true, io := false, mem := false, crit_mem_prot := false },
    memcg_recursive_prot := false }

/-- The memory.max path of the C10 witness. -/
def maxPathC10 : String := "/sys/fs/cgroup/workload.slice/memory.max"

/-- Cgroupfs world for the C10 witness: an externally-set `memory.max` of
`"0"` (far outside tolerance of the fixed `"max"` target). -/
def fsysC10 : CgFs :=
  { files := fun p =>
      if p = "/sys/fs/cgroup/workload.slice/memory.min" then Option.some "0"
      else if p = "/sys/fs/cgroup/workload.slice/memory.low" then Option.some "0"
      else if p = maxPathC10 then Option.some "0"
      else if p = "/sys/fs/cgroup/workload.slice/memory.high" then Option.some "max"
      else Option.none,
    dirExists := fun _ => false,
    descFiles := fun _ _ => [],
    scFiles := [],
    writeFails := fun _ => false }

/-- Initial minder state: a successful status refresh and a fresh report
at time 0, unit observed `Running`. -/
def minderS0 : MinderSt := { lastStatusAt := 0, lastReportAt := 0, unitState := UnitState.Running }

/-- Forty minder ticks, one per second, every `svc.unit.refresh()` failing,
the report staying fresh. -/
def failTicks : List Tick :=
  (List.range 40).map (fun i =>
    { attempts := [(i + 1, RefreshResult.fail)], reportTs := i + 1, now := i + 1 })

/-- Decidable equality for `Except` results (not derived in core). -/
instance {ε α : Type} [DecidableEq ε] [DecidableEq α] : DecidableEq (Except ε α)
  | Except.ok a, Except.ok b =>
    if h : a = b then isTrue (by rw [h]) else isFalse (by simp [h])
  | Except.ok _, Except.error _ => isFalse (by simp)
  | Except.error _, Except.ok _ => isFalse (by simp)
  | Except.error e, Except.error f =>
    if h : e = f then isTrue (by rw [h]) else isFalse (by simp [h])

/-! ## Numeric lemmas -/

theorem log2f_bounds : ∀ (fuel n : Nat), 0 < n → n < 2 ^ fuel →
    2 ^ log2f fuel n ≤ n ∧ n < 2 ^ (log2f fuel n + 1) := by
  intro fuel
  induction fuel with
  | zero => intro n h0 h1; simp at h1; omega
  | succ f ih =>
    intro n h0 h1
    by_cases hn : n ≤ 1
    · have hone : n = 1 := by omega
      subst hone
      simp [log2f]
    · simp only [log2f, if_neg hn]
      have h2 : 0 < n / 2 := by omega
      have h3 : n / 2 < 2 ^ f := by
        rw [pow_succ] at h1
        omega
      obtain ⟨l, u⟩ := ih (n / 2) h2 h3
      have e1 : 2 ^ (log2f f (n / 2) + 1) = 2 ^ log2f f (n / 2) * 2 := by rw [pow_succ]
      have e2 : 2 ^ (log2f f (n / 2) + 1 + 1) = 2 ^ (log2f f (n / 2) + 1) * 2 := by
        rw [pow_succ]
      omega

theorem nlog2_bounds {n : Nat} (h0 : 0 < n) (h1 : n < 2 ^ 128) :
    2 ^ nlog2 n ≤ n ∧ n < 2 ^ (nlog2 n + 1) :=
  log2f_bounds 128 n h0 h1

theorem flNat_small {n : Nat} (h : n ≤ 2 ^ 53) : flNat n = n := by
  by_cases h' : n < 2 ^ 53
  · simp only [flNat]
    rw [if_pos h']
  · have : n = 2 ^ 53 := by omega
    subst this
    decide

theorem rne_bounds (p q : Nat) (hq : 0 < q) :
    (p : ℚ) / q - 1 / 2 ≤ (roundNearestEven p q : ℚ)
    ∧ (roundNearestEven p q : ℚ) ≤ (p : ℚ) / q + 1 / 2 := by
  have hq' : (0:ℚ) < (q:ℚ) := by exact_mod_cast hq
  have hcast : ((p / q : Nat) : ℚ) * q + ((p % q : Nat) : ℚ) = p := by
    exact_mod_cast congrArg (fun n : Nat => (n : ℚ))
      (show (p / q) * q + p % q = p by rw [Nat.mul_comm]; exact Nat.div_add_mod p q)
  have key : (p : ℚ) / q = ((p / q : Nat) : ℚ) + ((p % q : Nat) : ℚ) / q := by
    field_simp
    linarith
  have hr1 : ((p % q : Nat) : ℚ) / q < 1 := by
    rw [div_lt_one hq']
    exact_mod_cast Nat.mod_lt p hq
  have hr0 : (0:ℚ) ≤ ((p % q : Nat) : ℚ) / q := by positivity
  unfold roundNearestEven
  by_cases h1 : q < 2 * (p % q)
  · rw [if_pos h1]
    have hhalf : (1:ℚ) / 2 ≤ ((p % q : Nat) : ℚ) / q := by
      rw [div_le_div_iff₀ (by norm_num) hq']
      exact_mod_cast (by omega : 1 * q ≤ (p % q) * 2)
    push_cast
    constructor <;> linarith
  · rw [if_neg h1]
    by_cases h2 : 2 * (p % q) = q
    · rw [if_pos h2]
      have hhalf : ((p % q : Nat) : ℚ) / q = 1 / 2 := by
        rw [div_eq_div_iff (ne_of_gt hq') (by norm_num : (2:ℚ) ≠ 0)]
        exact_mod_cast (by omega : (p % q) * 2 = 1 * q)
      by_cases h3 : p / q % 2 = 0
      · rw [if_pos h3]
        constructor <;> linarith
      · rw [if_neg h3]
        push_cast
        constructor <;> linarith
    · rw [if_neg h2]
      have hhalf : ((p % q : Nat) : ℚ) / q ≤ 1 / 2 := by
        rw [div_le_div_iff₀ hq' (by norm_num)]
        exact_mod_cast (by omega : (p % q) * 2 ≤ 1 * q)
      constructor <;> linarith

theorem cast_pow_q (n : Nat) : ((2 ^ n : Nat) : ℚ) = (2:ℚ) ^ (n : ℤ) := by
  rw [zpow_natCast]
  push_cast
  ring

theorem zpow_ofNat_toNat {k : Int} (hk : 0 ≤ k) :
    (2:ℚ) ^ k = ((2 ^ k.toNat : Nat) : ℚ) := by
  rw [cast_pow_q]
  congr 1
  omega

theorem zpow_neg_toNat {k : Int} (hk : k < 0) :
    (2:ℚ) ^ k = (((2 ^ (-k).toNat : Nat) : ℚ))⁻¹ := by
  rw [cast_pow_q]
  rw [← zpow_neg]
  congr 1
  omega

theorem qpow2le_iff (a b : Nat) (k : Int) (hb : 0 < b) :
    qpow2le a b k = true ↔ (2:ℚ) ^ k ≤ (a:ℚ) / b := by
  have hb' : (0:ℚ) < (b:ℚ) := by exact_mod_cast hb
  unfold qpow2le
  by_cases hk : 0 ≤ k
  · rw [if_pos hk, zpow_ofNat_toNat hk, le_div_iff₀ hb',
      mul_comm (((2 ^ k.toNat : Nat) : ℚ)) ((b : ℚ))]
    simp only [decide_eq_true_eq]
    norm_cast
  · rw [if_neg hk]
    have hkneg : k < 0 := by omega
    have hp : (0:ℚ) < ((2 ^ (-k).toNat : Nat) : ℚ) := by positivity
    rw [zpow_neg_toNat hkneg, le_div_iff₀ hb', inv_mul_le_iff₀ hp,
      mul_comm (((2 ^ (-k).toNat : Nat) : ℚ)) ((a : ℚ))]
    simp only [decide_eq_true_eq]
    norm_cast

theorem floorLog2_bounds {a b : Nat} (ha : 0 < a) (hb : 0 < b)
    (ha2 : a < 2 ^ 128) (hb2 : b < 2 ^ 128) :
    (2:ℚ) ^ floorLog2 a b ≤ (a:ℚ) / b ∧ (a:ℚ) / b < (2:ℚ) ^ (floorLog2 a b + 1) := by
  obtain ⟨la1, la2⟩ := nlog2_bounds ha ha2
  obtain ⟨lb1, lb2⟩ := nlog2_bounds hb hb2
  have hbq : (0:ℚ) < (b:ℚ) := by exact_mod_cast hb
  have hla1 : (2:ℚ) ^ ((nlog2 a : Nat) : ℤ) ≤ (a:ℚ) := by
    rw [← cast_pow_q]
    exact_mod_cast la1
  have hla2 : (a:ℚ) < (2:ℚ) ^ (((nlog2 a : Nat) : ℤ) + 1) := by
    rw [show ((nlog2 a : Nat) : ℤ) + 1 = (((nlog2 a + 1 : Nat) : ℤ)) by push_cast; ring,
      ← cast_pow_q]
    exact_mod_cast la2
  have hlb1 : (2:ℚ) ^ ((nlog2 b : Nat) : ℤ) ≤ (b:ℚ) := by
    rw [← cast_pow_q]
    exact_mod_cast lb1
  have hlb2 : (b:ℚ) < (2:ℚ) ^ (((nlog2 b : Nat) : ℤ) + 1) := by
    rw [show ((nlog2 b : Nat) : ℤ) + 1 = (((nlog2 b + 1 : Nat) : ℤ)) by push_cast; ring,
      ← cast_pow_q]
    exact_mod_cast lb2
  unfold floorLog2
  by_cases hq : qpow2le a b ((nlog2 a : Int) - (nlog2 b : Int)) = true
  · rw [if_pos hq]
    refine ⟨(qpow2le_iff a b _ hb).1 hq, ?_⟩
    rw [div_lt_iff₀ hbq]
    calc (a:ℚ) < (2:ℚ) ^ (((nlog2 a : Nat) : ℤ) + 1) := hla2
      _ = (2:ℚ) ^ (((nlog2 a : Int) - (nlog2 b : Int)) + 1) * (2:ℚ) ^ ((nlog2 b : Nat) : ℤ) := by
        rw [← zpow_add₀ (two_ne_zero)]
        congr 1
        omega
      _ ≤ (2:ℚ) ^ (((nlog2 a : Int) - (nlog2 b : Int)) + 1) * b := by
        have hpos : (0:ℚ) < (2:ℚ) ^ (((nlog2 a : Int) - (nlog2 b : Int)) + 1) :=
          zpow_pos (by norm_num) _
        exact mul_le_mul_of_nonneg_left hlb1 hpos.le
  · rw [if_neg hq]
    constructor
    · rw [le_div_iff₀ hbq]
      calc (2:ℚ) ^ ((nlog2 a : Int) - (nlog2 b : Int) - 1) * (b:ℚ)
          ≤ (2:ℚ) ^ ((nlog2 a : Int) - (nlog2 b : Int) - 1)
            * (2:ℚ) ^ (((nlog2 b : Nat) : ℤ) + 1) := by
            have hpos : (0:ℚ) < (2:ℚ) ^ ((nlog2 a : Int) - (nlog2 b : Int) - 1) :=
              zpow_pos (by norm_num) _
            exact mul_le_mul_of_nonneg_left hlb2.le hpos.le
        _ = (2:ℚ) ^ ((nlog2 a : Nat) : ℤ) := by
            rw [← zpow_add₀ (two_ne_zero)]
            congr 1
            omega
        _ ≤ (a:ℚ) := hla1
    · have hnot : ¬ ((2:ℚ) ^ ((nlog2 a : Int) - (nlog2 b : Int)) ≤ (a:ℚ) / b) := by
        intro hle
        exact hq ((qpow2le_iff a b _ hb).2 hle)
      rw [show (nlog2 a : Int) - (nlog2 b : Int) - 1 + 1
          = (nlog2 a : Int) - (nlog2 b : Int) by omega]
      exact not_le.1 hnot

theorem roundMant_bounds {a b : Nat} (hb : 0 < b) :
    ((a:ℚ) / b) * (2:ℚ) ^ (52 - floorLog2 a b) - 1 / 2 ≤ ((roundMant a b).1 : ℚ)
    ∧ ((roundMant a b).1 : ℚ) ≤ ((a:ℚ) / b) * (2:ℚ) ^ (52 - floorLog2 a b) + 1 / 2 := by
  have hbq : (0:ℚ) < (b:ℚ) := by exact_mod_cast hb
  unfold roundMant
  by_cases hs : (0:ℤ) ≤ 52 - floorLog2 a b
  · simp only [if_pos hs]
    have key : ((a * 2 ^ (52 - floorLog2 a b).toNat : Nat) : ℚ) / b
        = ((a:ℚ) / b) * (2:ℚ) ^ (52 - floorLog2 a b) := by
      rw [zpow_ofNat_toNat hs]
      push_cast
      ring
    have := rne_bounds (a * 2 ^ (52 - floorLog2 a b).toNat) b hb
    rw [key] at this
    exact this
  · simp only [if_neg hs]
    have hneg : (0:ℤ) ≤ -(52 - floorLog2 a b) := by omega
    have hb2 : 0 < b * 2 ^ (-(52 - floorLog2 a b)).toNat := by positivity
    have hppos : (0:ℚ) < ((2 ^ (-(52 - floorLog2 a b)).toNat : Nat) : ℚ) := by positivity
    have key : ((a : Nat) : ℚ) / ((b * 2 ^ (-(52 - floorLog2 a b)).toNat : Nat) : ℚ)
        = ((a:ℚ) / b) * (2:ℚ) ^ (52 - floorLog2 a b) := by
      have h1 : (2:ℚ) ^ (52 - floorLog2 a b)
          = (((2 ^ (-(52 - floorLog2 a b)).toNat : Nat) : ℚ))⁻¹ := by
        rw [zpow_neg_toNat (by omega)]
      rw [h1]
      push_cast
      field_simp
    have := rne_bounds a (b * 2 ^ (-(52 - floorLog2 a b)).toNat) hb2
    rw [key] at this
    exact this

theorem dyadicLt_iff (m1 m2 : Nat) (e1 e2 : Int) :
    dyadicLt (m1, e1) (m2, e2) = true ↔
      (m1:ℚ) * (2:ℚ) ^ (e1 - 52) < (m2:ℚ) * (2:ℚ) ^ (e2 - 52) := by
  unfold dyadicLt
  by_cases he : e1 ≤ e2
  · simp only [if_pos he, decide_eq_true_eq]
    have hsplit : (2:ℚ) ^ (e2 - 52) = (2:ℚ) ^ (e2 - e1) * (2:ℚ) ^ (e1 - 52) := by
      rw [← zpow_add₀ (two_ne_zero)]
      congr 1
      omega
    rw [hsplit, ← mul_assoc,
      mul_lt_mul_right (zpow_pos (by norm_num : (0:ℚ) < 2) (e1 - 52)),
      zpow_ofNat_toNat (by omega : (0:ℤ) ≤ e2 - e1)]
    norm_cast
  · simp only [if_neg he, decide_eq_true_eq]
    have hsplit : (2:ℚ) ^ (e1 - 52) = (2:ℚ) ^ (e1 - e2) * (2:ℚ) ^ (e2 - 52) := by
      rw [← zpow_add₀ (two_ne_zero)]
      congr 1
      omega
    rw [hsplit, ← mul_assoc,
      mul_lt_mul_right (zpow_pos (by norm_num : (0:ℚ) < 2) (e2 - 52)),
      zpow_ofNat_toNat (by omega : (0:ℤ) ≤ e1 - e2)]
    norm_cast

theorem f64DivLtTenth_iff {d t : Nat} (hd : d ≤ 2 ^ 53) (ht0 : 0 < t) (ht : t ≤ 2 ^ 53) :
    (f64DivLtTenth d t = true ↔ 10 * d < t) := by
  have htne : t ≠ 0 := Nat.pos_iff_ne_zero.mp ht0
  by_cases hd0 : d = 0
  · subst hd0
    simp [f64DivLtTenth, htne, ht0]
  · unfold f64DivLtTenth
    rw [if_neg htne, if_neg hd0]
    have hdpos : 0 < d := Nat.pos_of_ne_zero hd0
    have hdq : (0:ℚ) < (d:ℚ) := by exact_mod_cast hdpos
    have htq : (0:ℚ) < (t:ℚ) := by exact_mod_cast ht0
    obtain ⟨hx1, hx2⟩ := floorLog2_bounds hdpos ht0
      (lt_of_le_of_lt hd (by norm_num)) (lt_of_le_of_lt ht (by norm_num))
    obtain ⟨hm1, hm2⟩ := roundMant_bounds (a := d) (b := t) ht0
    set x : ℚ := (d:ℚ) / (t:ℚ) with hxdef
    set e : Int := floorLog2 d t with hedef
    set m : Nat := (roundMant d t).1 with hmdef
    have hxpos : 0 < x := div_pos hdq htq
    have hpair : roundMant d t = (m, e) := by
      rw [hmdef, hedef]
      rfl
    rw [hpair, dyadicLt_iff]
    rw [show (-4:ℤ) - 52 = -56 by norm_num]
    -- numeric values of the powers of two involved
    have h8 : (2:ℚ) ^ (-3:ℤ) = 1/8 := by
      rw [zpow_neg_toNat (by norm_num)]
      norm_num [show Int.toNat 3 = 3 from rfl]
    have h16 : (2:ℚ) ^ (-4:ℤ) = 1/16 := by
      rw [zpow_neg_toNat (by norm_num)]
      norm_num [show Int.toNat 4 = 4 from rfl]
    have h56n : (2:ℚ) ^ (-56:ℤ) = 1/72057594037927936 := by
      rw [zpow_neg_toNat (by norm_num)]
      norm_num [show Int.toNat 56 = 56 from rfl]
    have h57n : (2:ℚ) ^ (-57:ℤ) = 1/144115188075855872 := by
      rw [zpow_neg_toNat (by norm_num)]
      norm_num [show Int.toNat 57 = 57 from rfl]
    have h55n : (2:ℚ) ^ (-55:ℤ) = 1/36028797018963968 := by
      rw [zpow_neg_toNat (by norm_num)]
      norm_num [show Int.toNat 55 = 55 from rfl]
    have h52v : (2:ℚ) ^ (52:ℤ) = 4503599627370496 := by
      rw [zpow_ofNat_toNat (by norm_num)]
      norm_num [show Int.toNat 52 = 52 from rfl]
    have h56v : (2:ℚ) ^ (56:ℤ) = 72057594037927936 := by
      rw [zpow_ofNat_toNat (by norm_num)]
      norm_num [show Int.toNat 56 = 56 from rfl]
    have hmant : ((mantTenth : Nat) : ℚ) = 7205759403792794 := by norm_num [mantTenth]
    -- value bounds for the rounded quotient
    have hz1 : (2:ℚ) ^ (52 - e) * (2:ℚ) ^ (e - 52) = 1 := by
      rw [← zpow_add₀ two_ne_zero]
      norm_num
    have hz3 : (1/2 : ℚ) * (2:ℚ) ^ (e - 52) = (2:ℚ) ^ (e - 53) := by
      have hh : (2:ℚ) ^ (e - 53) * (2:ℚ) ^ (1:ℤ) = (2:ℚ) ^ (e - 52) := by
        rw [← zpow_add₀ two_ne_zero]
        congr 1
        omega
      have h2 : (2:ℚ) ^ (1:ℤ) = 2 := by norm_num
      rw [h2] at hh
      linarith
  -- upper and lower bounds on the value of the rounded quotient
    have hval_le : (m:ℚ) * (2:ℚ) ^ (e - 52) ≤ x + (2:ℚ) ^ (e - 53) := by
      have h2 : (0:ℚ) < (2:ℚ) ^ (e - 52) := zpow_pos (by norm_num) _
      have step := mul_le_mul_of_nonneg_right hm2 h2.le
      have expand : (x * (2:ℚ) ^ (52 - e) + 1 / 2) * (2:ℚ) ^ (e - 52)
          = x * ((2:ℚ) ^ (52 - e) * (2:ℚ) ^ (e - 52)) + (1/2) * (2:ℚ) ^ (e - 52) := by
        ring
      rw [expand, hz1, hz3, mul_one] at step
      exact step
    have hval_ge : x - (2:ℚ) ^ (e - 53) ≤ (m:ℚ) * (2:ℚ) ^ (e - 52) := by
      have h2 : (0:ℚ) < (2:ℚ) ^ (e - 52) := zpow_pos (by norm_num) _
      have step := mul_le_mul_of_nonneg_right hm1 h2.le
      have expand : (x * (2:ℚ) ^ (52 - e) - 1 / 2) * (2:ℚ) ^ (e - 52)
          = x * ((2:ℚ) ^ (52 - e) * (2:ℚ) ^ (e - 52)) - (1/2) * (2:ℚ) ^ (e - 52) := by
        ring
      rw [expand, hz1, hz3, mul_one] at step
      exact step
    constructor
    · -- if the binary64 quotient is below 0.1f64, the exact rule holds
      intro hlt
      by_contra h10
      have hx110 : 1/10 ≤ x := by
        rw [hxdef, le_div_iff₀ htq]
        have hcast : (t:ℚ) ≤ 10 * (d:ℚ) := by exact_mod_cast Nat.not_lt.1 h10
        linarith
      have hCle : ((mantTenth : Nat):ℚ) * (2:ℚ) ^ (-56:ℤ) ≤ (m:ℚ) * (2:ℚ) ^ (e - 52) := by
        by_cases hxe : x < (2:ℚ) ^ (-3:ℤ)
        · -- the quotient lies in the binade of 0.1: e = -4
          have he1 : e < -3 := by
            have hlt2 : (2:ℚ) ^ e < (2:ℚ) ^ (-3:ℤ) := lt_of_le_of_lt hx1 hxe
            exact (zpow_lt_zpow_iff_right₀ (by norm_num : (1:ℚ) < 2)).1 hlt2
          have he2 : -4 ≤ e := by
            have hlt2 : (2:ℚ) ^ (-4:ℤ) < (2:ℚ) ^ (e+1) := by
              rw [h16]
              calc (1:ℚ)/16 < 1/10 := by norm_num
                _ ≤ x := hx110
                _ < _ := hx2
            have := (zpow_lt_zpow_iff_right₀ (by norm_num : (1:ℚ) < 2)).1 hlt2
            omega
          have heq : e = -4 := by omega
          have hy : x * (2:ℚ) ^ (52 - e) = x * (2:ℚ) ^ (56:ℤ) := by
            rw [heq]
            norm_num
          rw [hy] at hm1
          have hyge : (1/10:ℚ) * (2:ℚ) ^ (56:ℤ) ≤ x * (2:ℚ) ^ (56:ℤ) :=
            mul_le_mul_of_nonneg_right hx110 (zpow_pos (by norm_num) _).le
          rw [h56v] at hyge hm1
          have hmge : mantTenth ≤ m := by
            have hq1 : ((mantTenth : Nat):ℚ) < (m:ℚ) + 1 := by
              rw [hmant]
              linarith
            have hq2 : mantTenth < m + 1 := by exact_mod_cast hq1
            omega
          rw [heq, show ((-4:ℤ) - 52) = (-56:ℤ) by norm_num]
          exact mul_le_mul_of_nonneg_right (by exact_mod_cast hmge)
            (zpow_pos (by norm_num) _).le
        · -- the quotient is at least 1/8: far above 0.1
          rw [not_lt] at hxe
          have he3 : -3 ≤ e := by
            have hlt2 : (2:ℚ) ^ (-3:ℤ) < (2:ℚ) ^ (e+1) := lt_of_le_of_lt hxe hx2
            have := (zpow_lt_zpow_iff_right₀ (by norm_num : (1:ℚ) < 2)).1 hlt2
            omega
          have hy52 : (2:ℚ) ^ (52:ℤ) ≤ x * (2:ℚ) ^ (52 - e) := by
            calc (2:ℚ) ^ (52:ℤ) = (2:ℚ) ^ e * (2:ℚ) ^ (52 - e) := by
                  rw [← zpow_add₀ two_ne_zero]
                  congr 1
                  omega
              _ ≤ x * (2:ℚ) ^ (52 - e) :=
                  mul_le_mul_of_nonneg_right hx1 (zpow_pos (by norm_num) _).le
          have hmge : (2:ℚ) ^ (52:ℤ) - 1/2 ≤ (m:ℚ) := by linarith
          have hz : (2:ℚ) ^ (-55:ℤ) ≤ (2:ℚ) ^ (e - 52) :=
            zpow_le_zpow_right₀ (by norm_num) (by omega)
          have step1 : ((2:ℚ) ^ (52:ℤ) - 1/2) * (2:ℚ) ^ (-55:ℤ)
              ≤ ((2:ℚ) ^ (52:ℤ) - 1/2) * (2:ℚ) ^ (e - 52) := by
            apply mul_le_mul_of_nonneg_left hz
            rw [h52v]
            norm_num
          have step2 : ((2:ℚ) ^ (52:ℤ) - 1/2) * (2:ℚ) ^ (e - 52) ≤ (m:ℚ) * (2:ℚ) ^ (e - 52) :=
            mul_le_mul_of_nonneg_right hmge (zpow_pos (by norm_num) _).le
          have hval : ((2:ℚ) ^ (52:ℤ) - 1/2) * (2:ℚ) ^ (-55:ℤ) ≤ (m:ℚ) * (2:ℚ) ^ (e - 52) := by
            linarith
          rw [h52v, h55n] at hval
          rw [hmant, h56n]
          linarith
      exact absurd hlt (not_lt.2 hCle)
    · -- if the exact rule holds, the binary64 quotient is below 0.1f64
      intro h10
      have hx110 : x ≤ 1/10 - 1/(10 * (t:ℚ)) := by
        have hid : (1/10 - 1/(10 * (t:ℚ))) * t = t/10 - 1/10 := by
          field_simp
          ring
        rw [hxdef, div_le_iff₀ htq, hid]
        have hcast : 10 * (d:ℚ) + 1 ≤ (t:ℚ) := by
          exact_mod_cast (show 10 * d + 1 ≤ t by omega)
        linarith
      have htle : (t:ℚ) ≤ ((2 ^ 53 : Nat) : ℚ) := by exact_mod_cast ht
      have h53c : ((2 ^ 53 : Nat) : ℚ) = 9007199254740992 := by norm_num
      rw [h53c] at htle
      have hfrac : (1:ℚ)/(10 * 9007199254740992) ≤ 1/(10 * (t:ℚ)) := by
        apply one_div_le_one_div_of_le
        · positivity
        · linarith
      have hxsmall : x ≤ 1/10 - 1/(10 * 9007199254740992) := by linarith
      have he4 : e ≤ -4 := by
        have hx18 : x < (2:ℚ) ^ (-3:ℤ) := by
          rw [h8]
          have hp : (0:ℚ) < 1/(10 * 9007199254740992) := by norm_num
          linarith
        have := (zpow_lt_zpow_iff_right₀ (by norm_num : (1:ℚ) < 2)).1
          (lt_of_le_of_lt hx1 hx18)
        omega
      have hz : (2:ℚ) ^ (e - 53) ≤ (2:ℚ) ^ (-57:ℤ) :=
        zpow_le_zpow_right₀ (by norm_num) (by omega)
      rw [h57n] at hz
      rw [hmant, h56n]
      linarith

theorem f64AbsDiffRatioLtTenth_iff {v t : Nat} (hv : v ≤ 2 ^ 53) (ht : t ≤ 2 ^ 53)
    (ht0 : 0 < t) :
    (f64AbsDiffRatioLtTenth v t = true ↔ 10 * (max v t - min v t) < t) := by
  unfold f64AbsDiffRatioLtTenth
  simp only [flNat_small hv, flNat_small ht,
    flNat_small (show max v t - min v t ≤ 2 ^ 53 by omega)]
  exact f64DivLtTenth_iff (by omega) ht0 ht

theorem memWithinTol_iff {cur targetRaw total : Nat}
    (hv : min cur total ≤ 2 ^ 53) (ht : min targetRaw total ≤ 2 ^ 53) :
    (memWithinTol cur targetRaw total = true ↔
      (min targetRaw total = min cur total ∨
        (0 < min targetRaw total ∧
          10 * (max (min cur total) (min targetRaw total)
            - min (min cur total) (min targetRaw total)) < min targetRaw total))) := by
  unfold memWithinTol
  simp only [Bool.or_eq_true, Bool.and_eq_true, decide_eq_true_eq]
  constructor
  · rintro (h | ⟨h0, hf⟩)
    · exact Or.inl h
    · exact Or.inr ⟨h0, (f64AbsDiffRatioLtTenth_iff hv ht h0).1 hf⟩
  · rintro (h | ⟨h0, hf⟩)
    · exact Or.inl h
    · exact Or.inr ⟨h0, (f64AbsDiffRatioLtTenth_iff hv ht h0).2 hf⟩

theorem fixCgrpMem_not_within {files : String → Option String} {path : String}
    {isLimit : Bool} {knob : MemoryKnob} {total : Nat} {line : String}
    (hf : files path = Option.some line)
    (hw : (match parseMemLine line with
           | Option.some v => memWithinTol v (knob.nrBytes isLimit total) total
           | Option.none => false) = false) :
    ∃ effs, fixCgrpMem files path isLimit knob total = Except.ok effs ∧
      effWrites effs path = [mknobToCgrpString knob isLimit total] ∧ effs ≠ [] := by
  unfold fixCgrpMem
  rw [hf]
  simp only [hw, Bool.false_eq_true, if_false]
  split
  · refine ⟨_, rfl, ?_, ?_⟩
    · simp [effWrites]
    · simp
  · refine ⟨_, rfl, ?_, ?_⟩
    · simp [effWrites]
    · simp

theorem fixCgrpMem_within {files : String → Option String} {path : String}
    {isLimit : Bool} {knob : MemoryKnob} {total : Nat} {line : String} {cur : Nat}
    (hf : files path = Option.some line)
    (hp : parseMemLine line = Option.some cur)
    (hw : memWithinTol cur (knob.nrBytes isLimit total) total = true) :
    fixCgrpMem files path isLimit knob total = Except.ok [] := by
  unfold fixCgrpMem
  rw [hf]
  simp only [hp, hw, if_true]

/-- C2 (amended): for every memory attribute verification whose current
content parses, letting `v = min(current, total_memory)` and
`t = min(knob.nr_bytes(is_limit), total_memory)`, and provided both `v` and
`t` are at most `2 ^ 53` (exactly representable in binary64, true of any
real machine's byte counts), `fix_cgrp_mem` issues no write if and only if
`t = v`, or `t > 0` and `|v - t| / t < 1/10`; an unparseable current value
always yields a write of the cgroupfs encoding of the target.  (Without the
`2 ^ 53` bound the claim is false: see the counterexample.) -/
theorem fix_cgrp_mem_tolerance :
    (∀ (files : String → Option String) (path : String) (isLimit : Bool)
        (knob : MemoryKnob) (total : Nat) (line : String) (cur : Nat),
      files path = Option.some line →
      parseMemLine line = Option.some cur →
      min cur total ≤ 2 ^ 53 →
      min (knob.nrBytes isLimit total) total ≤ 2 ^ 53 →
      ((fixCgrpMem files path isLimit knob total = Except.ok []) ↔
        (min (knob.nrBytes isLimit total) total = min cur total ∨
          (0 < min (knob.nrBytes isLimit total) total ∧
            10 * (max (min cur total) (min (knob.nrBytes isLimit total) total)
              - min (min cur total) (min (knob.nrBytes isLimit total) total))
              < min (knob.nrBytes isLimit total) total))))
    ∧ (∀ (files : String → Option String) (path : String) (isLimit : Bool)
        (knob : MemoryKnob) (total : Nat) (line : String),
      files path = Option.some line →
      parseMemLine line = Option.none →
      ∃ effs, fixCgrpMem files path isLimit knob total = Except.ok effs ∧
        effWrites effs path = [mknobToCgrpString knob isLimit total]) := by
  constructor
  · intro files path isLimit knob total line cur hf hp hv ht
    by_cases hw : memWithinTol cur (knob.nrBytes isLimit total) total = true
    · exact iff_of_true (fixCgrpMem_within hf hp hw) ((memWithinTol_iff hv ht).1 hw)
    · have hw' : memWithinTol cur (knob.nrBytes isLimit total) total = false := by
        revert hw
        cases memWithinTol cur (knob.nrBytes isLimit total) total <;> simp
      obtain ⟨effs, he, hws, hne⟩ := fixCgrpMem_not_within hf (by rw [hp]; exact hw')
      rw [he]
      constructor
      · intro hok
        exact absurd (by injection hok) hne
      · intro hrule
        have htrue := (memWithinTol_iff hv ht).2 hrule
        rw [htrue] at hw'
        exact absurd hw' (by simp)
  · intro files path isLimit knob total line hf hp
    obtain ⟨effs, he, hws, _⟩ := fixCgrpMem_not_within hf (by rw [hp])
    exact ⟨effs, he, hws⟩

/-- C2 counterexample: with current content `"39631676720860364"`, target
knob `Bytes(2 ^ 55)` and `total_memory = 2 ^ 60`, the exact tolerance rule
of the claim is satisfied (`|v - t| / t = 3602879701896396 / 2 ^ 55 < 1/10`,
so the claim mandates no write), yet the code's binary64 computation lands
above `0.1f64` and `fix_cgrp_mem` rewrites the file (and re-applies the
unit override). -/
theorem fix_cgrp_mem_tolerance_cex :
    (fixCgrpMem c2files c2path false (MemoryKnob.bytes 36028797018963968) 1152921504606846976
      = Except.ok [Eff.write c2path "36028797018963968",
          Eff.unitApply "workload.slice" (Option.some ("mem_low", 36028797018963968))])
    ∧ (min ((MemoryKnob.bytes 36028797018963968).nrBytes false 1152921504606846976)
          1152921504606846976 ≠ min 39631676720860364 1152921504606846976
      ∧ 0 < min ((MemoryKnob.bytes 36028797018963968).nrBytes false 1152921504606846976)
          1152921504606846976
      ∧ 10 * (max (min 39631676720860364 1152921504606846976)
            (min ((MemoryKnob.bytes 36028797018963968).nrBytes false 1152921504606846976)
              1152921504606846976)
          - min (min 39631676720860364 1152921504606846976)
            (min ((MemoryKnob.bytes 36028797018963968).nrBytes false 1152921504606846976)
              1152921504606846976))
        < min ((MemoryKnob.bytes 36028797018963968).nrBytes false 1152921504606846976)
            1152921504606846976) := by
  constructor
  · decide
  · constructor
    · decide
    · constructor
      · decide
      · decide

/-- C2 witness: a concrete in-tolerance instance (current 1000, target
1005, total 2 ^ 60) run through the theorem. -/
theorem fix_cgrp_mem_tolerance_witness :
    c2wfiles c2path = Option.some "1000"
    ∧ parseMemLine "1000" = Option.some 1000
    ∧ ((fixCgrpMem c2wfiles c2path false (MemoryKnob.bytes 1005) 1152921504606846976
        = Except.ok [])
      ↔ (min ((MemoryKnob.bytes 1005).nrBytes false 1152921504606846976) 1152921504606846976
            = min 1000 1152921504606846976 ∨
          (0 < min ((MemoryKnob.bytes 1005).nrBytes false 1152921504606846976)
              1152921504606846976 ∧
            10 * (max (min 1000 1152921504606846976)
                (min ((MemoryKnob.bytes 1005).nrBytes false 1152921504606846976)
                  1152921504606846976)
              - min (min 1000 1152921504606846976)
                (min ((MemoryKnob.bytes 1005).nrBytes false 1152921504606846976)
                  1152921504606846976))
              < min ((MemoryKnob.bytes 1005).nrBytes false 1152921504606846976)
                1152921504606846976))) :=
  ⟨by decide, by decide,
    fix_cgrp_mem_tolerance.1 c2wfiles c2path false (MemoryKnob.bytes 1005)
      1152921504606846976 "1000" 1000 (by decide) (by decide) (by decide) (by decide)⟩

/-- C8 (amended): when `work_mem_low_none` is set, `apply_slices` first
recomputes the Work slice's `mem_low` as
`Bytes((hashd_mem_size as f64 * 0.75).ceil() as u64)` (modelled exactly by
`rustCeil75`), before any drop-in is built; the result equals the exact
integer ceiling of `3·h/4` for every `h` with `3·h < 2 ^ 53` (in particular
`6 GiB` for `h = 8 GiB`), but not for every `u64` (binary64 rounding
deviates, see the counterexample at `h = 2 ^ 53 - 1`). -/
theorem work_mem_low_ceil :
    (∀ (knobs : SliceKnobs) (h : Nat) (cfg : Config) (iseq total : Nat)
        (fs : Slice → Option String),
      knobs.work_mem_low_none = true →
      ((applySlices knobs h cfg iseq total fs).knobs.slices Slice.Work).mem_low
        = MemoryKnob.bytes (rustCeil75 h))
    ∧ (∀ h : Nat, 3 * h < 2 ^ 53 → rustCeil75 h = (3 * h + 3) / 4) := by
  constructor
  · intro knobs h cfg iseq total fs hw
    show ((updWorkMemLow knobs h).slices Slice.Work).mem_low = _
    unfold updWorkMemLow
    rw [hw]
    simp
  · intro h h3
    unfold rustCeil75
    rw [flNat_small (show h ≤ 2 ^ 53 by omega), flNat_small (show 3 * h ≤ 2 ^ 53 by omega)]

/-- C8 counterexample: at `hashd_mem_size = 2 ^ 53 - 1` the binary64
computation yields `6755399441055743`, one below the exact ceiling
`⌈3·(2 ^ 53 - 1)/4⌉ = 6755399441055744` asserted by the claim. -/
theorem work_mem_low_ceil_cex :
    ((applySlices kWml 9007199254740991 cfg0 1 tot0 fs0).knobs.slices Slice.Work).mem_low
      = MemoryKnob.bytes 6755399441055743
    ∧ (3 * 9007199254740991 + 3) / 4 = 6755399441055744 := by
  constructor
  · decide
  · decide

/-- C8 witness: scenario S2 (`hashd_mem_size = 8 GiB`) through the theorem:
Work's `mem_low` becomes exactly 6 GiB. -/
theorem work_mem_low_ceil_witness :
    kWml.work_mem_low_none = true
    ∧ ((applySlices kWml 8589934592 cfg0 1 tot0 fs0).knobs.slices Slice.Work).mem_low
        = MemoryKnob.bytes 6442450944
    ∧ rustCeil75 8589934592 = (3 * 8589934592 + 3) / 4 :=
  ⟨rfl,
    by
      rw [work_mem_low_ceil.1 kWml 8589934592 cfg0 1 tot0 fs0 rfl]
      decide,
    work_mem_low_ceil.2 8589934592 (by decide)⟩

/-- C5 (amended): a `wait_cond_fallible` pass surfaces a non-`Ok` minder
state as an error exactly when the predicate does not already hold: the
predicate is checked first, so a call whose predicate evaluates true
returns success even while the minder state is non-`Ok` (contrary to the
claim's "regardless" clause, see the counterexample). -/
theorem wait_cond_minder_error :
    ∀ (cond : Bool) (minder : MinderState) (expired exitReq : Bool),
      cond = false → minder ≠ MinderState.Ok →
      waitCondStep cond minder expired exitReq = WaitOutcome.minderErr minder := by
  intro cond minder expired exitReq hc hm
  subst hc
  unfold waitCondStep
  rw [if_neg (by simp), if_pos hm]

/-- C5 counterexample: with the predicate already true and
`minder_state = AgentTimeout`, the pass returns success, not the
`MinderFailure` error the claim requires. -/
theorem wait_cond_minder_error_cex :
    waitCondStep true MinderState.AgentTimeout false false = WaitOutcome.ok
    ∧ WaitOutcome.ok ≠ WaitOutcome.minderErr MinderState.AgentTimeout := by
  constructor
  · decide
  · decide

/-- C5 witness: a false predicate with `minder_state = AgentTimeout`
surfaces the error. -/
theorem wait_cond_minder_error_witness :
    waitCondStep false MinderState.AgentTimeout false false
      = WaitOutcome.minderErr MinderState.AgentTimeout :=
  wait_cond_minder_error false MinderState.AgentTimeout false false rfl (by decide)

/-- C4 (amended): the minder's `last_status_at` records the time of the
last refresh *attempt*, successful or not: a tick whose failing refresh
happens within 30 seconds of the previous attempt resets `last_status_at`
to the failure time and continues, so once-per-second continuously failing
refreshes never reach the deadline; `AgentTimeout` fires only when a
failing refresh occurs more than 30 seconds after the previous attempt. -/
theorem minder_agent_timeout :
    ∀ (s : MinderSt) (t : Nat) (rest : List (Nat × RefreshResult)) (reportTs now : Nat),
      s.unitState = UnitState.Running →
      ((s.lastStatusAt + 30 < t →
        minderTick s ⟨(t, RefreshResult.fail) :: rest, reportTs, now⟩
          = Sum.inr (MinderExit.exitState MinderState.AgentTimeout))
      ∧ (t ≤ s.lastStatusAt + 30 → now ≤ s.lastReportAt + 30 →
        ∃ s', minderTick s ⟨[(t, RefreshResult.fail)], reportTs, now⟩
          = Sum.inl s' ∧ s'.lastStatusAt = t)) := by
  intro s t rest reportTs now hrun
  constructor
  · intro hdeadline
    unfold minderTick
    have hsl : statusLoop s.lastStatusAt s.unitState 3 ((t, RefreshResult.fail) :: rest)
        = StatusRes.agentTimeout := by
      simp only [statusLoop]
      rw [if_pos ⟨trivial, hdeadline⟩]
    rw [hsl]
  · intro hno hreport
    unfold minderTick
    have hsl : statusLoop s.lastStatusAt s.unitState 3 [(t, RefreshResult.fail)]
        = StatusRes.running t := by
      simp only [statusLoop]
      rw [if_neg (fun hcon => absurd hcon.2 (by omega)), hrun]
      simp
    rw [hsl]
    dsimp only
    rw [if_neg (by omega : ¬(max s.lastReportAt reportTs + 30 < now))]
    exact ⟨_, rfl, rfl⟩

/-- C4 counterexample: starting from a successful refresh at time 0, forty
once-per-second ticks whose refreshes all fail never set `AgentTimeout`
(nor any other exit), although more than 30 seconds elapse after the last
successful refresh — the deadline the claim asserts never fires because
`last_status_at` is reset on every failed attempt. -/
theorem minder_agent_timeout_cex :
    minderRun minderS0 failTicks = Option.none ∧ failTicks.length = 40 := by
  constructor
  · decide
  · decide

/-- C4 witness: a failing refresh 31 seconds after the previous attempt
exits with `AgentTimeout`; one 10 seconds after resets `last_status_at`
to the failure time and continues. -/
theorem minder_agent_timeout_witness :
    (minderTick ⟨0, 0, UnitState.Running⟩ ⟨[(31, RefreshResult.fail)], 0, 5⟩
      = Sum.inr (MinderExit.exitState MinderState.AgentTimeout))
    ∧ (∃ s', minderTick ⟨0, 0, UnitState.Running⟩ ⟨[(10, RefreshResult.fail)], 0, 5⟩
        = Sum.inl s' ∧ s'.lastStatusAt = 10) :=
  ⟨(minder_agent_timeout ⟨0, 0, UnitState.Running⟩ 31 [] 0 5 rfl).1 (by decide),
   (minder_agent_timeout ⟨0, 0, UnitState.Running⟩ 10 [] 0 5 rfl).2 (by decide) (by decide)⟩

theorem applySliceOne_fs_self (knobs : SliceKnobs) (cfg : Config) (iseq total : Nat)
    (a : Slice) (st : ApplyState) (h : sliceSkipped cfg.enforce a = false) :
    (applySliceOne knobs cfg iseq total a st).fs a
      = Option.some (dropinFor knobs cfg iseq total a) := by
  unfold applySliceOne
  simp only [h, Bool.false_eq_true, if_false]
  unfold applyConfiglet
  cases hfs : st.fs a with
  | none => simp
  | some buf =>
    by_cases hb : buf = dropinFor knobs cfg iseq total a
    · simp [hb, hfs]
    · simp [hb]

theorem applySliceOne_fs_other (knobs : SliceKnobs) (cfg : Config) (iseq total : Nat)
    (a s : Slice) (st : ApplyState) (hne : s ≠ a) :
    (applySliceOne knobs cfg iseq total a st).fs s = st.fs s := by
  unfold applySliceOne
  by_cases hs : sliceSkipped cfg.enforce a
  · simp [hs]
  · simp only [hs, Bool.false_eq_true, if_false]
    unfold applyConfiglet
    cases hfs : st.fs a with
    | none => simp [hne]
    | some buf =>
      by_cases hb : buf = dropinFor knobs cfg iseq total a
      · simp [hb]
      · simp [hb, hne]

theorem applySliceOne_skip (knobs : SliceKnobs) (cfg : Config) (iseq total : Nat)
    (a : Slice) (st : ApplyState) (h : sliceSkipped cfg.enforce a = true) :
    applySliceOne knobs cfg iseq total a st = st := by
  unfold applySliceOne
  simp [h]

theorem applySliceOne_noop (knobs : SliceKnobs) (cfg : Config) (iseq total : Nat)
    (a : Slice) (st : ApplyState)
    (h : sliceSkipped cfg.enforce a = false →
      st.fs a = Option.some (dropinFor knobs cfg iseq total a)) :
    applySliceOne knobs cfg iseq total a st = st := by
  by_cases hs : sliceSkipped cfg.enforce a
  · exact applySliceOne_skip knobs cfg iseq total a st hs
  · have hs' : sliceSkipped cfg.enforce a = false := by
      revert hs
      cases sliceSkipped cfg.enforce a <;> simp
    unfold applySliceOne
    simp only [hs', Bool.false_eq_true, if_false]
    unfold applyConfiglet
    rw [h hs']
    simp

theorem applyFold_fs (knobs : SliceKnobs) (cfg : Config) (iseq total : Nat) :
    ∀ (l : List Slice) (st : ApplyState) (s : Slice),
      (l.foldl (fun st slice => applySliceOne knobs cfg iseq total slice st) st).fs s
        = if s ∈ l ∧ sliceSkipped cfg.enforce s = false
          then Option.some (dropinFor knobs cfg iseq total s) else st.fs s := by
  intro l
  induction l with
  | nil =>
    intro st s
    simp
  | cons a tl ih =>
    intro st s
    rw [List.foldl_cons, ih]
    by_cases h1 : s ∈ tl ∧ sliceSkipped cfg.enforce s = false
    · rw [if_pos h1, if_pos ⟨List.mem_cons_of_mem a h1.1, h1.2⟩]
    · rw [if_neg h1]
      by_cases h2 : s ∈ a :: tl ∧ sliceSkipped cfg.enforce s = false
      · rw [if_pos h2]
        have hsa : s = a := by
          rcases List.mem_cons.1 h2.1 with hh | hh
          · exact hh
          · exact absurd ⟨hh, h2.2⟩ h1
        subst hsa
        exact applySliceOne_fs_self knobs cfg iseq total s st h2.2
      · rw [if_neg h2]
        by_cases hsa : s = a
        · subst hsa
          have hskip : sliceSkipped cfg.enforce s = true := by
            cases hcase : sliceSkipped cfg.enforce s
            · exact absurd ⟨List.mem_cons_self s tl, hcase⟩ h2
            · rfl
          rw [applySliceOne_skip knobs cfg iseq total s st hskip]
        · exact applySliceOne_fs_other knobs cfg iseq total a s st hsa

theorem applyFold_noop (knobs : SliceKnobs) (cfg : Config) (iseq total : Nat) :
    ∀ (l : List Slice) (st : ApplyState),
      (∀ s ∈ l, sliceSkipped cfg.enforce s = false →
        st.fs s = Option.some (dropinFor knobs cfg iseq total s)) →
      l.foldl (fun st slice => applySliceOne knobs cfg iseq total slice st) st = st := by
  intro l
  induction l with
  | nil =>
    intro st _
    rfl
  | cons a tl ih =>
    intro st hst
    rw [List.foldl_cons,
      applySliceOne_noop knobs cfg iseq total a st (hst a (List.mem_cons_self _ _))]
    exact ih st (fun s hs hns => hst s (List.mem_cons_of_mem a hs) hns)

theorem updWork_updWork (k : SliceKnobs) (h : Nat) :
    updWorkMemLow (updWorkMemLow k h) h = updWorkMemLow k h := by
  cases k with
  | mk sl ds wml =>
    unfold updWorkMemLow
    cases wml
    · simp
    · simp only [if_pos]
      congr 1
      funext s
      by_cases hs : s = Slice.Work
      · subst hs
        simp
      · simp [hs]

theorem slice_mem_all : ∀ s : Slice, s ∈ Slice.all := by
  intro s
  cases s <;> simp [Slice.all]

/-- C1: `apply_slices` is idempotent on the drop-in surface: an immediately
repeated call with byte-identical inputs finds every drop-in byte-identical
(`apply_configlet` returns false for every slice, so `changed = []`),
performs zero drop-in writes (the files are untouched), and does not invoke
`daemon_reload`. -/
theorem apply_slices_idempotent :
    ∀ (knobs : SliceKnobs) (h : Nat) (cfg : Config) (iseq total : Nat)
      (fs : Slice → Option String),
      (applySlices (applySlices knobs h cfg iseq total fs).knobs h cfg iseq total
          (applySlices knobs h cfg iseq total fs).fs).changed = []
      ∧ (applySlices (applySlices knobs h cfg iseq total fs).knobs h cfg iseq total
          (applySlices knobs h cfg iseq total fs).fs).daemonReload = false
      ∧ (applySlices (applySlices knobs h cfg iseq total fs).knobs h cfg iseq total
          (applySlices knobs h cfg iseq total fs).fs).fs
        = (applySlices knobs h cfg iseq total fs).fs := by
  intro knobs h cfg iseq total fs
  have h22 := updWork_updWork knobs h
  have hfs1 : ∀ s : Slice, sliceSkipped cfg.enforce s = false →
      (applySlices knobs h cfg iseq total fs).fs s
        = Option.some (dropinFor (updWorkMemLow knobs h) cfg iseq total s) := by
    intro s hns
    have hh := applyFold_fs (updWorkMemLow knobs h) cfg iseq total Slice.all
      { fs := fs, changed := [] } s
    rw [if_pos ⟨slice_mem_all s, hns⟩] at hh
    exact hh
  have hnoop := applyFold_noop (updWorkMemLow (updWorkMemLow knobs h) h) cfg iseq total
    Slice.all { fs := (applySlices knobs h cfg iseq total fs).fs, changed := [] }
    (fun s _ hns => by
      rw [h22]
      exact hfs1 s hns)
  refine ⟨?_, ?_, ?_⟩
  · show (Slice.all.foldl (fun st slice =>
        applySliceOne (updWorkMemLow (updWorkMemLow knobs h) h) cfg iseq total slice st)
      { fs := (applySlices knobs h cfg iseq total fs).fs, changed := [] }).changed = []
    rw [hnoop]
  · show (!(Slice.all.foldl (fun st slice =>
        applySliceOne (updWorkMemLow (updWorkMemLow knobs h) h) cfg iseq total slice st)
      { fs := (applySlices knobs h cfg iseq total fs).fs,
        changed := [] }).changed.isEmpty) = false
    rw [hnoop]
    rfl
  · show (Slice.all.foldl (fun st slice =>
        applySliceOne (updWorkMemLow (updWorkMemLow knobs h) h) cfg iseq total slice st)
      { fs := (applySlices knobs h cfg iseq total fs).fs, changed := [] }).fs
        = (applySlices knobs h cfg iseq total fs).fs
    rw [hnoop]

theorem clearSliceOne_fs_self (ecfg : EnforceConfig) (a : Slice) (st : ClearState)
    (h : sliceSkipped ecfg a = false) :
    (clearSliceOne ecfg a st).fs a = Option.none := by
  unfold clearSliceOne
  simp only [h, Bool.false_eq_true, if_false]
  unfold clearOneSlice
  cases hfs : st.fs a with
  | none => simp [hfs]
  | some buf => simp

theorem clearSliceOne_fs_other (ecfg : EnforceConfig) (a s : Slice) (st : ClearState)
    (hne : s ≠ a) :
    (clearSliceOne ecfg a st).fs s = st.fs s := by
  unfold clearSliceOne
  by_cases hs : sliceSkipped ecfg a
  · simp [hs]
  · simp only [hs, Bool.false_eq_true, if_false]
    unfold clearOneSlice
    cases hfs : st.fs a with
    | none => simp
    | some buf => simp [hne]

theorem clearSliceOne_skip (ecfg : EnforceConfig) (a : Slice) (st : ClearState)
    (h : sliceSkipped ecfg a = true) :
    clearSliceOne ecfg a st = st := by
  unfold clearSliceOne
  simp [h]

theorem clearFold_fs (ecfg : EnforceConfig) :
    ∀ (l : List Slice) (st : ClearState) (s : Slice),
      (l.foldl (fun st slice => clearSliceOne ecfg slice st) st).fs s
        = if s ∈ l ∧ sliceSkipped ecfg s = false then Option.none else st.fs s := by
  intro l
  induction l with
  | nil =>
    intro st s
    simp
  | cons a tl ih =>
    intro st s
    rw [List.foldl_cons, ih]
    by_cases h1 : s ∈ tl ∧ sliceSkipped ecfg s = false
    · rw [if_pos h1, if_pos ⟨List.mem_cons_of_mem a h1.1, h1.2⟩]
    · rw [if_neg h1]
      by_cases h2 : s ∈ a :: tl ∧ sliceSkipped ecfg s = false
      · rw [if_pos h2]
        have hsa : s = a := by
          rcases List.mem_cons.1 h2.1 with hh | hh
          · exact hh
          · exact absurd ⟨hh, h2.2⟩ h1
        subst hsa
        exact clearSliceOne_fs_self ecfg s st h2.2
      · rw [if_neg h2]
        by_cases hsa : s = a
        · subst hsa
          have hskip : sliceSkipped ecfg s = true := by
            cases hcase : sliceSkipped ecfg s
            · exact absurd ⟨List.mem_cons_self s tl, hcase⟩ h2
            · rfl
          rw [clearSliceOne_skip ecfg s st hskip]
        · exact clearSliceOne_fs_other ecfg a s st hsa

/-- C9: `clear_slices` undoes `apply_slices` on the drop-in surface: after
an apply followed by a clear with the same enforcement config, every slice
processed by the passes has no `resctl.conf` drop-in left (every file the
apply created is removed), and a slice skipped by both passes keeps its
prior state — in particular, starting from blank drop-in directories, no
drop-in file remains for any slice. -/
theorem clear_undoes_apply :
    ∀ (knobs : SliceKnobs) (h : Nat) (cfg : Config) (iseq total : Nat)
      (fs : Slice → Option String) (s : Slice),
      (sliceSkipped cfg.enforce s = false →
        (clearSlices cfg.enforce (applySlices knobs h cfg iseq total fs).fs).fs s
          = Option.none)
      ∧ (fs s = Option.none →
        (clearSlices cfg.enforce (applySlices knobs h cfg iseq total fs).fs).fs s
          = Option.none) := by
  intro knobs h cfg iseq total fs s
  have hc := clearFold_fs cfg.enforce Slice.all
    { fs := (applySlices knobs h cfg iseq total fs).fs, updated := false } s
  constructor
  · intro hns
    show (Slice.all.foldl (fun st slice => clearSliceOne cfg.enforce slice st)
      { fs := (applySlices knobs h cfg iseq total fs).fs, updated := false }).fs s
        = Option.none
    rw [hc, if_pos ⟨slice_mem_all s, hns⟩]
  · intro hfs0
    by_cases hns : sliceSkipped cfg.enforce s = false
    · show (Slice.all.foldl (fun st slice => clearSliceOne cfg.enforce slice st)
        { fs := (applySlices knobs h cfg iseq total fs).fs, updated := false }).fs s
          = Option.none
      rw [hc, if_pos ⟨slice_mem_all s, hns⟩]
    · show (Slice.all.foldl (fun st slice => clearSliceOne cfg.enforce slice st)
        { fs := (applySlices knobs h cfg iseq total fs).fs, updated := false }).fs s
          = Option.none
      rw [hc, if_neg (fun hcon => hns hcon.2)]
      have ha := applyFold_fs (updWorkMemLow knobs h) cfg iseq total Slice.all
        { fs := fs, changed := [] } s
      rw [if_neg (fun hcon => hns hcon.2)] at ha
      show (Slice.all.foldl (fun st slice =>
        applySliceOne (updWorkMemLow knobs h) cfg iseq total slice st)
        { fs := fs, changed := [] }).fs s = Option.none
      rw [ha]
      exact hfs0

/-- C9 witness: with full enforcement and blank start, the Work slice ends
with no drop-in after apply-then-clear. -/
theorem clear_undoes_apply_witness :
    (sliceSkipped cfg0.enforce Slice.Work = false)
    ∧ (clearSlices cfg0.enforce (applySlices k0 0 cfg0 1 tot0 fs0).fs).fs Slice.Work
        = Option.none :=
  ⟨by decide, (clear_undoes_apply k0 0 cfg0 1 tot0 fs0 Slice.Work).1 (by decide)⟩

theorem strAppendNe (p q v w : String) (k : Nat)
    (hp : k ≤ p.data.length) (hq : k ≤ q.data.length)
    (h : p.data.take k ≠ q.data.take k) : p ++ v ≠ q ++ w := by
  intro he
  apply h
  have hd : p.data ++ v.data = q.data ++ w.data := by
    rw [← String.data_append, ← String.data_append, he]
  have h1 : (p.data ++ v.data).take k = p.data.take k := by
    rw [List.take_append_eq_append_take, Nat.sub_eq_zero_of_le hp, List.take_zero,
      List.append_nil]
  have h2 : (q.data ++ w.data).take k = q.data.take k := by
    rw [List.take_append_eq_append_take, Nat.sub_eq_zero_of_le hq, List.take_zero,
      List.append_nil]
  rw [← h1, ← h2, hd]

theorem strAppendNeLit (p v q : String) (k : Nat)
    (hp : k ≤ p.data.length) (h : p.data.take k ≠ q.data.take k) : p ++ v ≠ q := by
  intro he
  apply h
  have hd : p.data ++ v.data = q.data := by
    rw [← String.data_append, he]
  have h1 : (p.data ++ v.data).take k = p.data.take k := by
    rw [List.take_append_eq_append_take, Nat.sub_eq_zero_of_le hp, List.take_zero,
      List.append_nil]
  rw [← h1, hd]

theorem memLow_ne_min (v w : String) : ("MemoryLow=" ++ v) ≠ ("MemoryMin=" ++ w) :=
  strAppendNe _ _ _ _ 7 (by decide) (by decide) (by decide)

theorem memLow_ne_high (v w : String) : ("MemoryLow=" ++ v) ≠ ("MemoryHigh=" ++ w) :=
  strAppendNe _ _ _ _ 7 (by decide) (by decide) (by decide)

theorem memLow_ne_cpu (v w : String) : ("MemoryLow=" ++ v) ≠ ("CPUWeight=" ++ w) :=
  strAppendNe _ _ _ _ 1 (by decide) (by decide) (by decide)

theorem memLow_ne_iow (v w : String) : ("MemoryLow=" ++ v) ≠ ("IOWeight=" ++ w) :=
  strAppendNe _ _ _ _ 1 (by decide) (by decide) (by decide)

theorem memLow_ne_header (v : String) :
    ("MemoryLow=" ++ v) ≠ "# Generated by rd-agent. Do not edit directly." :=
  strAppendNeLit _ _ _ 1 (by decide) (by decide)

theorem memLow_ne_sec (v s1 : String) : ("MemoryLow=" ++ v) ≠ ("[" ++ s1 ++ "]") := by
  have h1 : ("[" ++ s1 ++ "]") = ("[" ++ (s1 ++ "]")) := by
    rw [String.append_assoc]
  rw [h1]
  refine strAppendNe "MemoryLow=" "[" v (s1 ++ "]") 1 (by decide) (by decide) (by decide)

theorem memLow_configletLines (slice : Slice) (cw iw : Option Nat)
    (mn ml mh : Option MemoryKnob) (total : Nat) :
    ((∃ v, ("MemoryLow=" ++ v) ∈ configletLines slice cw iw mn ml mh total)
      ↔ ml ≠ Option.none) := by
  constructor
  · rintro ⟨v, hv⟩ hml
    subst hml
    cases cw <;> cases iw <;> cases mn <;> cases mh <;>
      simp only [configletLines, List.mem_append, List.mem_singleton, List.mem_cons,
        List.not_mem_nil, memLow_ne_min, memLow_ne_high, memLow_ne_cpu, memLow_ne_iow,
        memLow_ne_sec, memLow_ne_header, or_false, false_or] at hv
  · intro hml
    cases ml with
    | none => exact absurd rfl hml
    | some m =>
      exact ⟨mknobToSystemdString m false total, by simp [configletLines]⟩

theorem dropinFor_eq_join (knobs : SliceKnobs) (cfg : Config) (iseq total : Nat)
    (slice : Slice) :
    dropinFor knobs cfg iseq total slice
      = String.join ((dropinLines knobs cfg iseq total slice).map (fun l => l ++ "\n")) := by
  unfold dropinFor dropinLines buildConfiglet
  rcases dropinKnobs knobs cfg iseq slice with ⟨cw, iw, mn, ml, mh⟩
  rfl

theorem dropinKnobs_mem (knobs : SliceKnobs) (cfg : Config) (iseq : Nat) (slice : Slice)
    (h : sliceEnforceMem cfg.enforce slice = true) :
    dropinKnobs knobs cfg iseq slice
      = ((if cfg.enforce.cpu then Option.some (knobs.slices slice).cpu_weight else Option.none),
         (if cfg.enforce.io then Option.some (knobs.slices slice).io_weight else Option.none),
         Option.some (knobs.slices slice).mem_min,
         (if slice = Slice.Work ∧ iseq ≤ knobs.disable_seqs.mem then Option.none
          else Option.some (knobs.slices slice).mem_low),
         Option.some (knobs.slices slice).mem_high) := by
  unfold dropinKnobs
  rw [if_pos h]

theorem dropinLines_mem_form (knobs : SliceKnobs) (cfg : Config) (iseq total : Nat)
    (slice : Slice) (h : sliceEnforceMem cfg.enforce slice = true) :
    dropinLines knobs cfg iseq total slice
      = configletLines slice
          (if cfg.enforce.cpu then Option.some (knobs.slices slice).cpu_weight else Option.none)
          (if cfg.enforce.io then Option.some (knobs.slices slice).io_weight else Option.none)
          (Option.some (knobs.slices slice).mem_min)
          (if slice = Slice.Work ∧ iseq ≤ knobs.disable_seqs.mem then Option.none
           else Option.some (knobs.slices slice).mem_low)
          (Option.some (knobs.slices slice).mem_high) total := by
  unfold dropinLines
  rw [dropinKnobs_mem knobs cfg iseq slice h]

theorem updWork_disable_seqs (k : SliceKnobs) (h : Nat) :
    (updWorkMemLow k h).disable_seqs = k.disable_seqs := by
  unfold updWorkMemLow
  split
  · rfl
  · rfl

/-- C3: for every slice whose memory-enforce predicate holds, the drop-in
generated by `apply_slices` contains `MemoryMin` and `MemoryHigh` lines,
and contains a `MemoryLow` line except in exactly one case: the slice is
`Work` and `knobs.disable_seqs.mem ≥ current_instance_seq`, in which case
`MemoryLow` is omitted (any other slice, and Work with an expired disable
seq, keeps it). -/
theorem apply_slices_memlow_gate :
    ∀ (knobs : SliceKnobs) (h : Nat) (cfg : Config) (iseq total : Nat)
      (fs : Slice → Option String) (slice : Slice),
      sliceEnforceMem cfg.enforce slice = true →
      ((applySlices knobs h cfg iseq total fs).fs slice
          = Option.some (String.join ((dropinLines (updWorkMemLow knobs h) cfg iseq total
              slice).map (fun l => l ++ "\n")))
        ∧ (∃ v, ("MemoryMin=" ++ v) ∈ dropinLines (updWorkMemLow knobs h) cfg iseq total slice)
        ∧ (∃ v, ("MemoryHigh=" ++ v) ∈ dropinLines (updWorkMemLow knobs h) cfg iseq total slice)
        ∧ ((∃ v, ("MemoryLow=" ++ v) ∈ dropinLines (updWorkMemLow knobs h) cfg iseq total slice)
            ↔ ¬(slice = Slice.Work ∧ iseq ≤ knobs.disable_seqs.mem))) := by
  intro knobs h cfg iseq total fs slice hmem
  have hns : sliceSkipped cfg.enforce slice = false := by
    unfold sliceSkipped
    rw [hmem]
    simp
  refine ⟨?_, ?_, ?_, ?_⟩
  · have hh := applyFold_fs (updWorkMemLow knobs h) cfg iseq total Slice.all
      { fs := fs, changed := [] } slice
    rw [if_pos ⟨slice_mem_all slice, hns⟩] at hh
    show (Slice.all.foldl (fun st s => applySliceOne (updWorkMemLow knobs h) cfg iseq total
      s st) { fs := fs, changed := [] }).fs slice = _
    rw [hh, dropinFor_eq_join]
  · rw [dropinLines_mem_form (updWorkMemLow knobs h) cfg iseq total slice hmem]
    refine ⟨mknobToSystemdString ((updWorkMemLow knobs h).slices slice).mem_min false total, ?_⟩
    simp [configletLines]
  · rw [dropinLines_mem_form (updWorkMemLow knobs h) cfg iseq total slice hmem]
    refine ⟨mknobToSystemdString ((updWorkMemLow knobs h).slices slice).mem_high true total, ?_⟩
    simp [configletLines]
  · rw [dropinLines_mem_form (updWorkMemLow knobs h) cfg iseq total slice hmem,
      memLow_configletLines, updWork_disable_seqs]
    by_cases hg : slice = Slice.Work ∧ iseq ≤ knobs.disable_seqs.mem
    · simp [hg]
    · simp [hg]

/-- C3 witness: under full enforcement the Host drop-in keeps its
`MemoryLow` line (the gate applies only to Work). -/
theorem apply_slices_memlow_gate_witness :
    ∃ v, ("MemoryLow=" ++ v) ∈ dropinLines (updWorkMemLow k0 0) cfg0 1 tot0 Slice.Host :=
  ((apply_slices_memlow_gate k0 0 cfg0 1 tot0 fs0 Slice.Host (by decide)).2.2.2).2 (by decide)

theorem insertLenDesc_perm (p : String) (l : List String) :
    (insertLenDesc p l).Perm (p :: l) := by
  induction l with
  | nil => exact List.Perm.refl _
  | cons q qs ih =>
    unfold insertLenDesc
    by_cases h : q.length ≤ p.length
    · rw [if_pos h]
    · rw [if_neg h]
      exact (List.Perm.cons q ih).trans (List.Perm.swap p q qs)

theorem sortByLenDesc_perm (l : List String) : (sortByLenDesc l).Perm l := by
  induction l with
  | nil => exact List.Perm.refl _
  | cons p ps ih =>
    unfold sortByLenDesc
    exact (insertLenDesc_perm p (sortByLenDesc ps)).trans (List.Perm.cons p ih)

theorem insertLenDesc_sorted (p : String) (l : List String)
    (hl : l.Pairwise (fun a b => b.length ≤ a.length)) :
    (insertLenDesc p l).Pairwise (fun a b => b.length ≤ a.length) := by
  induction l with
  | nil => simp [insertLenDesc]
  | cons q qs ih =>
    rcases List.pairwise_cons.1 hl with ⟨hq, hqs⟩
    unfold insertLenDesc
    by_cases h : q.length ≤ p.length
    · rw [if_pos h]
      refine List.pairwise_cons.2 ⟨?_, hl⟩
      intro b hb
      rcases List.mem_cons.1 hb with rfl | hb'
      · exact h
      · exact le_trans (hq b hb') h
    · rw [if_neg h]
      refine List.pairwise_cons.2 ⟨?_, ih hqs⟩
      intro b hb
      have hb' := (insertLenDesc_perm p qs).mem_iff.1 hb
      rcases List.mem_cons.1 hb' with rfl | hb''
      · exact Nat.le_of_not_le h
      · exact hq b hb''

theorem sortByLenDesc_sorted (l : List String) :
    (sortByLenDesc l).Pairwise (fun a b => b.length ≤ a.length) := by
  induction l with
  | nil => simp [sortByLenDesc]
  | cons p ps ih =>
    unfold sortByLenDesc
    exact insertLenDesc_sorted p (sortByLenDesc ps) ih

theorem scWriteLoop_writes (fails : String → Bool) (content : String) :
    ∀ (l : List String) (n : Nat) (w : Option String),
      (scWriteLoop fails content l n w).1 = l.map (fun p => (p, content)) := by
  intro l
  induction l with
  | nil =>
    intro n w
    rfl
  | cons p ps ih =>
    intro n w
    unfold scWriteLoop
    by_cases h : fails p
    · simp [h, ih]
    · simp [h, ih]

theorem scWriteLoop_count (fails : String → Bool) (content : String) :
    ∀ (l : List String) (n : Nat) (w : Option String),
      (scWriteLoop fails content l n w).2.1 = n + l.countP fails := by
  intro l
  induction l with
  | nil =>
    intro n w
    simp [scWriteLoop]
  | cons p ps ih =>
    intro n w
    unfold scWriteLoop
    by_cases h : fails p
    · simp [h, ih, List.countP_cons]
      omega
    · simp [h, ih, List.countP_cons]

theorem scWriteLoop_warn_pos (fails : String → Bool) (content : String) :
    ∀ (l : List String) (n : Nat) (w : Option String), 0 < n →
      (scWriteLoop fails content l n w).2.2 = w := by
  intro l
  induction l with
  | nil =>
    intro n w _
    rfl
  | cons p ps ih =>
    intro n w hn
    unfold scWriteLoop
    by_cases h : fails p
    · simp only [h, if_true]
      rw [if_neg (by omega)]
      exact ih (n + 1) w (by omega)
    · simp only [h, Bool.false_eq_true, if_false]
      exact ih n w hn

theorem scWriteLoop_warn0 (fails : String → Bool) (content : String) :
    ∀ (l : List String),
      (scWriteLoop fails content l 0 Option.none).2.2 = (l.filter fails).head? := by
  intro l
  induction l with
  | nil => rfl
  | cons p ps ih =>
    unfold scWriteLoop
    by_cases h : fails p
    · simp only [h, if_true, if_pos rfl]
      rw [scWriteLoop_warn_pos fails content ps 1 (Option.some p) (by omega)]
      simp [List.filter_cons, h]
    · simp only [h, Bool.false_eq_true, if_false]
      rw [ih]
      simp [List.filter_cons, h]

theorem overrideStrs_disable (dseqs : DisableSeqKnobs) (cfg : Config) (iseq : Nat)
    (hcpu : cfg.enforce.cpu = true) (hgate : iseq ≤ dseqs.cpu) :
    (overrideStrs dseqs cfg iseq).1 = " -cpu" := by
  unfold overrideStrs
  rw [hcpu]
  simp only [if_true]
  rw [if_neg (Nat.not_lt.2 hgate)]
  rfl

/-- C7: when the disable edit string is non-empty (cpu enforced and gated
off), `fix_overrides` writes the disable string to every enumerated
`cgroup.subtree_control` path in non-increasing order of path length, warns
only the first failure and counts the rest, and issues all enable tokens by
at most a single write to the root `cgroup.subtree_control`. -/
theorem fix_overrides_order :
    ∀ (dseqs : DisableSeqKnobs) (cfg : Config) (iseq : Nat) (scFiles : List String)
      (fails : String → Bool),
      cfg.enforce.cpu = true → iseq ≤ dseqs.cpu →
      ((fixOverrides dseqs cfg iseq scFiles fails).disableWrites.map Prod.fst).Perm scFiles
      ∧ ((fixOverrides dseqs cfg iseq scFiles fails).disableWrites.map Prod.fst).Pairwise
          (fun a b => b.length ≤ a.length)
      ∧ (∀ pc ∈ (fixOverrides dseqs cfg iseq scFiles fails).disableWrites, pc.2 = " -cpu")
      ∧ (fixOverrides dseqs cfg iseq scFiles fails).firstFailWarn
          = ((sortByLenDesc scFiles).filter fails).head?
      ∧ (fixOverrides dseqs cfg iseq scFiles fails).nrFailed = scFiles.countP fails
      ∧ (fixOverrides dseqs cfg iseq scFiles fails).enableWrites.length ≤ 1
      ∧ (∀ pc ∈ (fixOverrides dseqs cfg iseq scFiles fails).enableWrites,
          pc.1 = "/sys/fs/cgroup/cgroup.subtree_control") := by
  intro dseqs cfg iseq scFiles fails hcpu hgate
  have hd := overrideStrs_disable dseqs cfg iseq hcpu hgate
  have hout : fixOverrides dseqs cfg iseq scFiles fails
      = (if ((overrideStrs dseqs cfg iseq).2).length > 0 then
          { disableWrites := (scWriteLoop fails " -cpu" (sortByLenDesc scFiles) 0
              Option.none).1,
            nrFailed := (scWriteLoop fails " -cpu" (sortByLenDesc scFiles) 0
              Option.none).2.1,
            firstFailWarn := (scWriteLoop fails " -cpu" (sortByLenDesc scFiles) 0
              Option.none).2.2,
            enableWrites := [("/sys/fs/cgroup/cgroup.subtree_control",
              (overrideStrs dseqs cfg iseq).2)],
            err := fails "/sys/fs/cgroup/cgroup.subtree_control" }
         else
          { disableWrites := (scWriteLoop fails " -cpu" (sortByLenDesc scFiles) 0
              Option.none).1,
            nrFailed := (scWriteLoop fails " -cpu" (sortByLenDesc scFiles) 0
              Option.none).2.1,
            firstFailWarn := (scWriteLoop fails " -cpu" (sortByLenDesc scFiles) 0
              Option.none).2.2,
            enableWrites := [], err := false }) := by
    unfold fixOverrides
    rcases ho : overrideStrs dseqs cfg iseq with ⟨dis, en⟩
    rw [ho] at hd
    subst hd
    rfl
  have hwrites := scWriteLoop_writes fails " -cpu" (sortByLenDesc scFiles) 0 Option.none
  have hcount := scWriteLoop_count fails " -cpu" (sortByLenDesc scFiles) 0 Option.none
  have hwarn := scWriteLoop_warn0 fails " -cpu" (sortByLenDesc scFiles)
  have hmapfst : ((scWriteLoop fails " -cpu" (sortByLenDesc scFiles) 0 Option.none).1.map
      Prod.fst) = sortByLenDesc scFiles := by
    rw [hwrites, List.map_map]
    have hid : (Prod.fst ∘ fun p : String => (p, " -cpu")) = id := rfl
    rw [hid, List.map_id]
  by_cases hen : ((overrideStrs dseqs cfg iseq).2).length > 0
  · rw [hout, if_pos hen]
    dsimp only
    refine ⟨?_, ?_, ?_, ?_, ?_, ?_, ?_⟩
    · rw [hmapfst]
      exact sortByLenDesc_perm scFiles
    · rw [hmapfst]
      exact sortByLenDesc_sorted scFiles
    · intro pc hpc
      rw [hwrites] at hpc
      rcases List.mem_map.1 hpc with ⟨q, _, rfl⟩
      rfl
    · exact hwarn
    · rw [hcount, (sortByLenDesc_perm scFiles).countP_eq]
      omega
    · simp
    · intro pc hpc
      rcases List.mem_singleton.1 hpc with rfl
      rfl
  · rw [hout, if_neg hen]
    dsimp only
    refine ⟨?_, ?_, ?_, ?_, ?_, ?_, ?_⟩
    · rw [hmapfst]
      exact sortByLenDesc_perm scFiles
    · rw [hmapfst]
      exact sortByLenDesc_sorted scFiles
    · intro pc hpc
      rw [hwrites] at hpc
      rcases List.mem_map.1 hpc with ⟨q, _, rfl⟩
      rfl
    · exact hwarn
    · rw [hcount, (sortByLenDesc_perm scFiles).countP_eq]
      omega
    · simp
    · intro pc hpc
      exact absurd hpc (List.not_mem_nil pc)

/-- C7 witness: a three-path enumeration through the theorem: the write
order is sorted by decreasing path length. -/
theorem fix_overrides_order_witness :
    ((fixOverrides { cpu := 5, io := 0, mem := 0 } cfgC6 3
        ["/sys/fs/cgroup/a/cgroup.subtree_control",
         "/sys/fs/cgroup/cgroup.subtree_control",
         "/sys/fs/cgroup/a/b/cgroup.subtree_control"]
        (fun _ => false)).disableWrites.map Prod.fst).Pairwise
      (fun a b => b.length ≤ a.length) :=
  (fix_overrides_order { cpu := 5, io := 0, mem := 0 } cfgC6 3
    ["/sys/fs/cgroup/a/cgroup.subtree_control",
     "/sys/fs/cgroup/cgroup.subtree_control",
     "/sys/fs/cgroup/a/b/cgroup.subtree_control"]
    (fun _ => false) (by decide) (by decide)).2.1

theorem effWrites_append (a b : List Eff) (q : String) :
    effWrites (a ++ b) q = effWrites a q ++ effWrites b q := by
  unfold effWrites
  exact List.filterMap_append a b _

theorem effWrites_mem (es : List Eff) (q c : String) :
    c ∈ effWrites es q ↔ Eff.write q c ∈ es := by
  unfold effWrites
  rw [List.mem_filterMap]
  constructor
  · rintro ⟨e, he, hc⟩
    cases e with
    | write q' c' =>
      by_cases hq : q' = q
      · subst hq
        simp only [if_pos rfl] at hc
        injection hc with hc
        subst hc
        exact he
      · simp [hq] at hc
    | unitApply u v => simp at hc
  · intro hw
    exact ⟨Eff.write q c, hw, by simp⟩

theorem strAppendLeftNe (p a b : String) (h : a ≠ b) : p ++ a ≠ p ++ b := by
  intro he
  apply h
  have hd : p.data ++ a.data = p.data ++ b.data := by
    rw [← String.data_append, ← String.data_append, he]
  have hab : a.data = b.data := List.append_cancel_left hd
  cases a with
  | mk da =>
    cases b with
    | mk db =>
      simp only at hab
      rw [hab]

theorem fixCgrpMem_writes_shape {files : String → Option String} {p : String} {il : Bool}
    {k : MemoryKnob} {t : Nat} {es : List Eff}
    (h : fixCgrpMem files p il k t = Except.ok es) :
    ∀ q c, Eff.write q c ∈ es → q = p ∧ c = mknobToCgrpString k il t := by
  intro q c hmem
  unfold fixCgrpMem at h
  cases hf : files p with
  | none =>
    rw [hf] at h
    exact absurd h (by simp)
  | some line =>
    rw [hf] at h
    by_cases hw : (match parseMemLine line with
        | Option.some v => memWithinTol v (k.nrBytes il t) t
        | Option.none => false) = true
    · simp only [hw, if_true] at h
      injection h with h'
      subst h'
      exact absurd hmem (List.not_mem_nil _)
    · have hw' : (match parseMemLine line with
          | Option.some v => memWithinTol v (k.nrBytes il t) t
          | Option.none => false) = false := by
        revert hw
        cases (match parseMemLine line with
          | Option.some v => memWithinTol v (k.nrBytes il t) t
          | Option.none => false) <;> simp
      simp only [hw', Bool.false_eq_true, if_false] at h
      split at h
      · injection h with h'
        subst h'
        rcases List.mem_singleton.1 hmem with heq
        injection heq with h1 h2
        exact ⟨h1, h2⟩
      · injection h with h'
        subst h'
        rcases List.mem_cons.1 hmem with heq | hmem2
        · injection heq with h1 h2
          exact ⟨h1, h2⟩
        · rcases List.mem_singleton.1 hmem2 with heq
          exact absurd heq (by simp)

theorem fixCgrpMem_effWrites_other {files : String → Option String} {p : String} {il : Bool}
    {k : MemoryKnob} {t : Nat} {es : List Eff} (q : String)
    (h : fixCgrpMem files p il k t = Except.ok es) (hq : q ≠ p) :
    effWrites es q = [] := by
  cases hes : effWrites es q with
  | nil => rfl
  | cons c rest =>
    have hc : c ∈ effWrites es q := by
      rw [hes]
      exact List.mem_cons_self c rest
    have := (fixCgrpMem_writes_shape h q c ((effWrites_mem es q c).1 hc)).1
    exact absurd this hq

theorem fixRecursive_effWrites_other (fsys : CgFs) (parent file : String)
    (knob : MemoryKnob) (total : Nat) (q : String)
    (hq : ∀ p ∈ fsys.descFiles parent file, q ≠ p) :
    effWrites (fixRecursiveMemProt fsys parent file knob total) q = [] := by
  unfold fixRecursiveMemProt
  generalize hps : fsys.descFiles parent file = ps at hq
  clear hps
  induction ps with
  | nil => rfl
  | cons p ps ih =>
    rw [List.foldr_cons]
    cases hcm : fixCgrpMem fsys.files p false knob total with
    | error e =>
      simp only [hcm]
      exact ih (fun r hr => hq r (List.mem_cons_of_mem p hr))
    | ok es =>
      simp only [hcm]
      rw [effWrites_append]
      rw [fixCgrpMem_effWrites_other q hcm (hq p (List.mem_cons_self p ps)),
        ih (fun r hr => hq r (List.mem_cons_of_mem p hr))]
      rfl

theorem except_bind_ok {ε α β : Type} (a : α) (f : α → Except ε β) :
    ((Except.ok a : Except ε α) >>= f) = f a := rfl

theorem except_bind_err {ε α β : Type} (e : ε) (f : α → Except ε β) :
    ((Except.error e : Except ε α) >>= f) = Except.error e := rfl

theorem fixSliceMem_decomp {fsys : CgFs} {sk : SliceConfig} {path : String}
    {vh pp rp : Bool} {total : Nat} {effs : List Eff}
    (h : fixSliceMem fsys sk path true vh pp rp total = Except.ok effs) :
    ∃ e1 e2 e3 e4,
      fixCgrpMem fsys.files (path ++ "/memory.min") false sk.mem_min total = Except.ok e1
      ∧ fixCgrpMem fsys.files (path ++ "/memory.low") false sk.mem_low total = Except.ok e2
      ∧ fixCgrpMem fsys.files (path ++ "/memory.max") true MemoryKnob.none total
          = Except.ok e3
      ∧ (if vh then fixCgrpMem fsys.files (path ++ "/memory.high") true sk.mem_high total
          else pure []) = Except.ok e4
      ∧ effs = e1 ++ e2 ++ e3 ++ e4
          ++ (if pp then
                (if rp then
                  fixRecursiveMemProt fsys path "memory.min" (MemoryKnob.bytes 0) total
                  ++ fixRecursiveMemProt fsys path "memory.low" (MemoryKnob.bytes 0) total
                 else
                  fixRecursiveMemProt fsys path "memory.min" sk.mem_min total
                  ++ fixRecursiveMemProt fsys path "memory.low" sk.mem_low total)
              else []) := by
  unfold fixSliceMem at h
  rw [if_pos rfl] at h
  cases h1 : fixCgrpMem fsys.files (path ++ "/memory.min") false sk.mem_min total with
  | error e =>
    rw [h1, except_bind_err] at h
    exact absurd h (by simp)
  | ok e1 =>
    rw [h1, except_bind_ok] at h
    cases h2 : fixCgrpMem fsys.files (path ++ "/memory.low") false sk.mem_low total with
    | error e =>
      rw [h2, except_bind_err] at h
      exact absurd h (by simp)
    | ok e2 =>
      rw [h2, except_bind_ok] at h
      cases h3 : fixCgrpMem fsys.files (path ++ "/memory.max") true MemoryKnob.none total with
      | error e =>
        rw [h3, except_bind_err] at h
        exact absurd h (by simp)
      | ok e3 =>
        rw [h3, except_bind_ok] at h
        by_cases hvh : vh = true
        · rw [if_pos hvh] at h
          cases h4 : fixCgrpMem fsys.files (path ++ "/memory.high") true sk.mem_high total with
          | error e =>
            rw [h4, except_bind_err] at h
            exact absurd h (by simp)
          | ok e4 =>
            rw [h4, except_bind_ok] at h
            refine ⟨e1, e2, e3, e4, rfl, rfl, rfl, ?_, ?_⟩
            · rw [if_pos hvh]
            · injection h with h9
              exact h9.symm
        · rw [if_neg hvh] at h
          refine ⟨e1, e2, e3, [], rfl, rfl, rfl, ?_, ?_⟩
          · rw [if_neg hvh]
            rfl
          · injection h with h9
            exact h9.symm

theorem mknob_none_limit (total : Nat) :
    mknobToCgrpString MemoryKnob.none true total = "max" := by
  unfold mknobToCgrpString MemoryKnob.nrBytes
  simp only [if_true]

/-- C10: the verifier drives `memory.max` to the fixed target
`MemoryKnob::None` interpreted as a limit (the cgroupfs string `"max"`),
independent of the `SliceConfig`: whenever `fix_slice_mem` runs with memory
enablement not gated (`enable = true`) and succeeds (and the recursive
protection glob does not alias the slice's own `memory.max` file), the
emitted effects on `memory.max` are exactly those of a `fix_cgrp_mem` run
against `MemoryKnob.none` as a limit, every such write is the string
`"max"`, and a parsed current value outside the tolerance band is rewritten
to `"max"`. -/
theorem memory_max_fixed_target
    (fsys : CgFs) (sk : SliceConfig) (path : String) (vh pp rp : Bool) (total : Nat)
    (effs : List Eff)
    (h : fixSliceMem fsys sk path true vh pp rp total = Except.ok effs)
    (hd1 : ∀ p ∈ fsys.descFiles path "memory.min", path ++ "/memory.max" ≠ p)
    (hd2 : ∀ p ∈ fsys.descFiles path "memory.low", path ++ "/memory.max" ≠ p) :
    (∃ es, fixCgrpMem fsys.files (path ++ "/memory.max") true MemoryKnob.none total
        = Except.ok es
      ∧ effWrites effs (path ++ "/memory.max") = effWrites es (path ++ "/memory.max"))
    ∧ (∀ c ∈ effWrites effs (path ++ "/memory.max"), c = "max")
    ∧ (∀ line cur, fsys.files (path ++ "/memory.max") = Option.some line →
        parseMemLine line = Option.some cur →
        memWithinTol cur (MemoryKnob.nrBytes MemoryKnob.none true total) total = false →
        effWrites effs (path ++ "/memory.max") = ["max"]) := by
  obtain ⟨e1, e2, e3, e4, h1, h2, h3, h4, h5⟩ := fixSliceMem_decomp h
  have hne1 : path ++ "/memory.max" ≠ path ++ "/memory.min" :=
    strAppendLeftNe path _ _ (by decide)
  have hne2 : path ++ "/memory.max" ≠ path ++ "/memory.low" :=
    strAppendLeftNe path _ _ (by decide)
  have hne4 : path ++ "/memory.max" ≠ path ++ "/memory.high" :=
    strAppendLeftNe path _ _ (by decide)
  have hw1 : effWrites e1 (path ++ "/memory.max") = [] :=
    fixCgrpMem_effWrites_other _ h1 hne1
  have hw2 : effWrites e2 (path ++ "/memory.max") = [] :=
    fixCgrpMem_effWrites_other _ h2 hne2
  have hw4 : effWrites e4 (path ++ "/memory.max") = [] := by
    by_cases hvh : vh = true
    · rw [if_pos hvh] at h4
      exact fixCgrpMem_effWrites_other _ h4 hne4
    · rw [if_neg hvh] at h4
      have he4 : e4 = [] := by
        injection h4 with h9
        exact h9.symm
      rw [he4]
      rfl
  have hw5 : effWrites
      (if pp then
        (if rp then
          fixRecursiveMemProt fsys path "memory.min" (MemoryKnob.bytes 0) total
          ++ fixRecursiveMemProt fsys path "memory.low" (MemoryKnob.bytes 0) total
         else
          fixRecursiveMemProt fsys path "memory.min" sk.mem_min total
          ++ fixRecursiveMemProt fsys path "memory.low" sk.mem_low total)
        else []) (path ++ "/memory.max") = [] := by
    by_cases hpp : pp = true
    · rw [if_pos hpp]
      by_cases hrp : rp = true
      · rw [if_pos hrp, effWrites_append,
          fixRecursive_effWrites_other fsys path "memory.min" (MemoryKnob.bytes 0) total _ hd1,
          fixRecursive_effWrites_other fsys path "memory.low" (MemoryKnob.bytes 0) total _ hd2]
        rfl
      · rw [if_neg hrp, effWrites_append,
          fixRecursive_effWrites_other fsys path "memory.min" sk.mem_min total _ hd1,
          fixRecursive_effWrites_other fsys path "memory.low" sk.mem_low total _ hd2]
        rfl
    · rw [if_neg hpp]
      rfl
  have hmain : effWrites effs (path ++ "/memory.max") = effWrites e3 (path ++ "/memory.max") := by
    rw [h5, effWrites_append, effWrites_append, effWrites_append, effWrites_append,
      hw1, hw2, hw4, hw5]
    simp
  refine ⟨⟨e3, h3, hmain⟩, ?_, ?_⟩
  · intro c hc
    rw [hmain] at hc
    have hshape := fixCgrpMem_writes_shape h3 _ c ((effWrites_mem e3 _ c).1 hc)
    rw [hshape.2]
    exact mknob_none_limit total
  · intro line cur hline hp hwt
    have hmatch : (match parseMemLine line with
        | Option.some v => memWithinTol v (MemoryKnob.nrBytes MemoryKnob.none true total) total
        | Option.none => false) = false := by
      rw [hp]
      exact hwt
    obtain ⟨es, hes, hws, -⟩ := fixCgrpMem_not_within hline hmatch
    rw [h3] at hes
    have hese : es = e3 := by
      injection hes with h9
      exact h9.symm
    rw [hmain, ← hese, hws, mknob_none_limit total]

theorem memory_max_fixed_target_witness :
    fixSliceMem fsysC10 sc0 "/sys/fs/cgroup/workload.slice" true true false false tot0
      = Except.ok
        [Eff.write "/sys/fs/cgroup/workload.slice/memory.min" "1073741824",
         Eff.unitApply "workload.slice" (Option.some ("mem_min", 1073741824)),
         Eff.write "/sys/fs/cgroup/workload.slice/memory.low" "2147483648",
         Eff.unitApply "workload.slice" (Option.some ("mem_low", 2147483648)),
         Eff.write "/sys/fs/cgroup/workload.slice/memory.max" "max",
         Eff.unitApply "workload.slice" (Option.some ("mem_max", 18446744073709551615))]
    ∧ effWrites
        [Eff.write "/sys/fs/cgroup/workload.slice/memory.min" "1073741824",
         Eff.unitApply "workload.slice" (Option.some ("mem_min", 1073741824)),
         Eff.write "/sys/fs/cgroup/workload.slice/memory.low" "2147483648",
         Eff.unitApply "workload.slice" (Option.some ("mem_low", 2147483648)),
         Eff.write "/sys/fs/cgroup/workload.slice/memory.max" "max",
         Eff.unitApply "workload.slice" (Option.some ("mem_max", 18446744073709551615))]
        ("/sys/fs/cgroup/workload.slice" ++ "/memory.max") = ["max"] := by
  have h : fixSliceMem fsysC10 sc0 "/sys/fs/cgroup/workload.slice" true true false false tot0
      = Except.ok
        [Eff.write "/sys/fs/cgroup/workload.slice/memory.min" "1073741824",
         Eff.unitApply "workload.slice" (Option.some ("mem_min", 1073741824)),
         Eff.write "/sys/fs/cgroup/workload.slice/memory.low" "2147483648",
         Eff.unitApply "workload.slice" (Option.some ("mem_low", 2147483648)),
         Eff.write "/sys/fs/cgroup/workload.slice/memory.max" "max",
         Eff.unitApply "workload.slice" (Option.some ("mem_max", 18446744073709551615))] := by
    decide
  refine ⟨h, ?_⟩
  exact (memory_max_fixed_target fsysC10 sc0 "/sys/fs/cgroup/workload.slice" true false false
    tot0 _ h (fun p hp => absurd hp (List.not_mem_nil p))
    (fun p hp => absurd hp (List.not_mem_nil p))).2.2 "0" 0 (by decide) (by decide) (by decide)

/-- C6 (amended): when cpu enforcement is enabled and not gated, a slice
whose `cpu.weight` file parses to a value different from the configured
`cpu_weight` has the file rewritten to the configured value; `fix_slice_cpu`
emits only that cgroupfs write and, unlike the memory fixes, no
unit-manager application (the original claim's asserted unit-manager
reflection of `cpu_weight` does not occur in the source). -/
theorem fix_slice_cpu_rewrite
    (files : String → Option String) (sk : SliceConfig) (path line : String) (v : Nat)
    (hline : files (path ++ "/cpu.weight") = Option.some line)
    (hv : scanDecU32 line = Option.some v)
    (hne : v ≠ sk.cpu_weight) :
    fixSliceCpu files sk path true
      = Except.ok [Eff.write (path ++ "/cpu.weight") (toString sk.cpu_weight)]
    ∧ effUnitApplies
        [Eff.write (path ++ "/cpu.weight") (toString sk.cpu_weight)] = [] := by
  constructor
  · unfold fixSliceCpu
    rw [hline]
    simp only [hv, Bool.not_true, Bool.false_eq_true, if_false]
    rw [if_neg hne]
  · rfl

theorem fix_slice_cpu_rewrite_cex :
    verifyAndFixSlices k0 false cfgC6 1 tot0 fsysC6
      = Except.ok [Eff.write cpuPathC6 "100"]
    ∧ effUnitApplies [Eff.write cpuPathC6 "100"] = [] := by
  constructor
  · decide
  · rfl

theorem fix_slice_cpu_rewrite_witness :
    (fixSliceCpu fsysC6.files sc0 "/sys/fs/cgroup/workload.slice" true
      = Except.ok [Eff.write ("/sys/fs/cgroup/workload.slice" ++ "/cpu.weight")
          (toString sc0.cpu_weight)]
    ∧ effUnitApplies
        [Eff.write ("/sys/fs/cgroup/workload.slice" ++ "/cpu.weight")
          (toString sc0.cpu_weight)] = []) := by
  exact fix_slice_cpu_rewrite fsysC6.files sc0 "/sys/fs/cgroup/workload.slice" "50" 50
    (by decide) (by decide) (by decide)
